import Mathlib

/-!
# Verification of the AlphaDrop alpha-matte processing pipeline

Shallow embedding, in Lean 4, of the pixel-buffer algorithms of the
AlphaDrop background-removal extension, together with proofs and
refutations of the frozen specification claims.

## Modelling conventions

* An image or mask buffer is modelled as a total function `ℕ → ℕ`
  (byte buffers, row-major flat index) or `ℕ → ℚ` (the JavaScript
  `Float32Array` buffers).  Each JavaScript function that allocates and
  fills an output array is embedded as a Lean function giving the value
  of every output cell; loops with an accumulator (integral images,
  in-place scans) are embedded by explicit recursion / folds.
* JavaScript float arithmetic is modelled exactly over `ℚ`; decimal
  literals such as `0.299` denote the exact rational.  The one operation
  with no rational counterpart, `Math.sqrt`, is threaded through the
  embedding as an explicit parameter `sq : ℚ → ℚ`; theorems that touch a
  `Math.sqrt` call site assume only the facts about `sq` that they need
  (for instance `sq 0 = 0`, which holds for the real square root).
* `Math.round` is `jsRound` (round half toward `+∞`), writes into a
  `Uint8Array` wrap modulo 256 (`jsByteWrap`), and writes into a
  `Uint8ClampedArray` clamp into `[0,255]` (`jsClampByte`); every such
  write in this code base stores an already-integral value, so the
  half-to-even rounding of `Uint8ClampedArray` never fires.
* Out-of-bounds typed-array reads yield `undefined` (hence `NaN`) in
  JavaScript.  The embedding keeps buffers total, and every theorem below
  only ever evaluates cells whose JavaScript computation stays in bounds;
  branches that a JavaScript run could only reach through `NaN` are
  marked in comments and are never exercised by any statement proved
  here.
-/

namespace AlphaDrop

/-- `Math.round`: round half toward positive infinity. -/
def jsRound (q : ℚ) : ℤ := ⌊q + 1/2⌋

/-- Storing an integer into a `Uint8Array` wraps modulo 256. -/
def jsByteWrap (z : ℤ) : ℕ := (z % 256).toNat

/-- Storing an integer into a `Uint8ClampedArray` clamps into `[0, 255]`. -/
def jsClampByte (z : ℤ) : ℕ := (max 0 (min 255 z)).toNat

/-- `Math.max(0, Math.min(1, q))`, the `[0,1]` clamp used on float masks. -/
def clamp01 (q : ℚ) : ℚ := max 0 (min 1 q)

/-!
## Box / integral filter  (`boxFilter`, src/unnamed/part_004 lines 122–158)

`boxFilter(src, width, height, radius)` builds a summed-area table
`integral` of size `(width+1)*(height+1)` and then reads four corners of
it per pixel.  `rowSum` is the running accumulator of the first loop;
`sat y x` is the value the code stores at `integral[y*(width+1)+x]`
(entries in row 0 and column 0 keep their `Float32Array` initial value 0).
The corner reads use a *flat* index into `integral`; `integralFlat`
reproduces that flat addressing (for a flat index outside the array a
JavaScript read gives `undefined`/`NaN`; the embedding returns a junk 0
there, and no theorem below depends on such a read).
-/

/-- Running row accumulator of the integral-image construction:
the value of `rowSum` after processing column `x` of row `y`. -/
def rowSum (src : ℕ → ℚ) (W : ℕ) (y x : ℕ) : ℚ :=
  ∑ t ∈ Finset.range (x + 1), src (y * W + t)

/-- The summed-area table: `sat src W y x` is `integral[y*(W+1)+x]`. -/
def sat (src : ℕ → ℚ) (W : ℕ) : ℕ → ℕ → ℚ
  | 0, _ => 0
  | _ + 1, 0 => 0
  | y + 1, x + 1 => rowSum src W y x + sat src W y (x + 1)

/-- Reading `integral[f]` by flat index, as the corner reads do. -/
def integralFlat (src : ℕ → ℚ) (W H : ℕ) (f : ℤ) : ℚ :=
  if 0 ≤ f ∧ f < ((W : ℤ) + 1) * ((H : ℤ) + 1) then
    sat src W (f / ((W : ℤ) + 1)).toNat (f % ((W : ℤ) + 1)).toNat
  else 0  -- JavaScript: undefined (NaN); never reached by any theorem here

/-- One output pixel of `boxFilter`.  `radius` is kept as an integer
because the identity-at-nonpositive-radius claim quantifies over it. -/
def boxFilterAt (src : ℕ → ℚ) (W H : ℕ) (radius : ℤ) (x y : ℕ) : ℚ :=
  let x1 : ℤ := max 0 ((x : ℤ) - radius)
  let y1 : ℤ := max 0 ((y : ℤ) - radius)
  let x2 : ℤ := min ((W : ℤ) - 1) ((x : ℤ) + radius)
  let y2 : ℤ := min ((H : ℤ) - 1) ((y : ℤ) + radius)
  let count : ℤ := (x2 - x1 + 1) * (y2 - y1 + 1)
  let s : ℚ :=
    integralFlat src W H ((y2 + 1) * ((W : ℤ) + 1) + (x2 + 1))
      - integralFlat src W H ((y2 + 1) * ((W : ℤ) + 1) + x1)
      - integralFlat src W H (y1 * ((W : ℤ) + 1) + (x2 + 1))
      + integralFlat src W H (y1 * ((W : ℤ) + 1) + x1)
  s / (count : ℚ)

/-- `boxFilter` as a flat buffer (`dst[y*width+x] = boxFilterAt x y`). -/
def boxFilterFlat (src : ℕ → ℚ) (W H : ℕ) (radius : ℤ) (i : ℕ) : ℚ :=
  boxFilterAt src W H radius (i % W) (i / W)

/-- The summed-area table holds the rectangle sums `[0,y) × [0,x)`. -/
theorem sat_eq (src : ℕ → ℚ) (W : ℕ) :
    ∀ y x, sat src W y x =
      ∑ r ∈ Finset.range y, ∑ t ∈ Finset.range x, src (r * W + t) := by
  intro y
  induction y with
  | zero => intro x; simp [sat]
  | succ y ih =>
    intro x
    cases x with
    | zero => simp [sat]
    | succ x =>
      rw [show sat src W (y + 1) (x + 1) = rowSum src W y x + sat src W y (x + 1) from rfl,
        ih (x + 1), Finset.sum_range_succ (fun r => ∑ t ∈ Finset.range (x + 1), src (r * W + t)) y]
      rw [rowSum]
      ring

/-- Reading `integral` at the flat index `q*(W+1)+r` with `q ≤ H`, `r ≤ W`
lands inside the table and returns the 2-D entry `sat q r`. -/
theorem integralFlat_natAccess (src : ℕ → ℚ) (W H : ℕ) (q r : ℕ)
    (hq : q ≤ H) (hrW : r ≤ W) :
    integralFlat src W H ((q : ℤ) * ((W : ℤ) + 1) + (r : ℤ)) = sat src W q r := by
  have hin : 0 ≤ (q : ℤ) * ((W : ℤ) + 1) + (r : ℤ) ∧
      (q : ℤ) * ((W : ℤ) + 1) + (r : ℤ) < ((W : ℤ) + 1) * ((H : ℤ) + 1) := by
    constructor
    · positivity
    · have h1 : (q : ℤ) * ((W : ℤ) + 1) ≤ (H : ℤ) * ((W : ℤ) + 1) := by
        apply mul_le_mul_of_nonneg_right (by exact_mod_cast hq)
        positivity
      have h2 : (r : ℤ) < (W : ℤ) + 1 := by exact_mod_cast Nat.lt_succ_of_le hrW
      nlinarith
  have hdiv : ((q : ℤ) * ((W : ℤ) + 1) + (r : ℤ)) / ((W : ℤ) + 1) = (q : ℤ) := by
    rw [add_comm, mul_comm, Int.add_mul_ediv_left _ _ (by positivity : ((W : ℤ) + 1) ≠ 0),
      Int.ediv_eq_zero_of_lt (by positivity) (by exact_mod_cast Nat.lt_succ_of_le hrW)]
    ring
  have hmod : ((q : ℤ) * ((W : ℤ) + 1) + (r : ℤ)) % ((W : ℤ) + 1) = (r : ℤ) := by
    rw [add_comm, mul_comm, Int.add_mul_emod_self_left,
      Int.emod_eq_of_lt (by positivity) (by exact_mod_cast Nat.lt_succ_of_le hrW)]
  rw [integralFlat, if_pos hin, hdiv, hmod, Int.toNat_natCast, Int.toNat_natCast]

/-- **Box filter = clamped window mean.**  For a nonnegative radius, every
output pixel of `boxFilter` is the mean of the `(2·radius+1)²` window
clamped to the image bounds, with the divisor equal to the number of
pixels actually inside the clamped window. -/
theorem boxFilterAt_windowMean (src : ℕ → ℚ) (W H : ℕ) (radius : ℤ)
    (hr : 0 ≤ radius) (x y : ℕ) (hx : x < W) (hy : y < H) :
    boxFilterAt src W H radius x y =
      (∑ r ∈ Finset.Icc (y - radius.toNat) (min (H - 1) (y + radius.toNat)),
        ∑ t ∈ Finset.Icc (x - radius.toNat) (min (W - 1) (x + radius.toNat)),
          src (r * W + t)) /
      (((min (W - 1) (x + radius.toNat) + 1 - (x - radius.toNat)) *
        (min (H - 1) (y + radius.toNat) + 1 - (y - radius.toNat)) : ℕ) : ℚ) := by
  have hrad : radius = (radius.toNat : ℤ) := (Int.toNat_of_nonneg hr).symm
  set R := radius.toNat with hR
  set nx1 := x - R with hnx1
  set nx2 := min (W - 1) (x + R) with hnx2
  set ny1 := y - R with hny1
  set ny2 := min (H - 1) (y + R) with hny2
  have ex1 : max 0 ((x : ℤ) - radius) = (nx1 : ℤ) := by rw [hrad]; omega
  have ex2 : min ((W : ℤ) - 1) ((x : ℤ) + radius) = (nx2 : ℤ) := by rw [hrad]; omega
  have ey1 : max 0 ((y : ℤ) - radius) = (ny1 : ℤ) := by rw [hrad]; omega
  have ey2 : min ((H : ℤ) - 1) ((y : ℤ) + radius) = (ny2 : ℤ) := by rw [hrad]; omega
  have hx1le : nx1 ≤ x := Nat.sub_le _ _
  have hxle2 : x ≤ nx2 := by omega
  have hy1le : ny1 ≤ y := Nat.sub_le _ _
  have hyle2 : y ≤ ny2 := by omega
  have hnx2W : nx2 ≤ W - 1 := min_le_left _ _
  have hny2H : ny2 ≤ H - 1 := min_le_left _ _
  have hA : integralFlat src W H (((ny2 : ℤ) + 1) * ((W : ℤ) + 1) + ((nx2 : ℤ) + 1)) =
      sat src W (ny2 + 1) (nx2 + 1) := by
    have := integralFlat_natAccess src W H (ny2 + 1) (nx2 + 1) (by omega) (by omega)
    simpa using this
  have hB : integralFlat src W H (((ny2 : ℤ) + 1) * ((W : ℤ) + 1) + (nx1 : ℤ)) =
      sat src W (ny2 + 1) nx1 := by
    have := integralFlat_natAccess src W H (ny2 + 1) nx1 (by omega) (by omega)
    simpa using this
  have hC : integralFlat src W H ((ny1 : ℤ) * ((W : ℤ) + 1) + ((nx2 : ℤ) + 1)) =
      sat src W ny1 (nx2 + 1) := by
    have := integralFlat_natAccess src W H ny1 (nx2 + 1) (by omega) (by omega)
    simpa using this
  have hD : integralFlat src W H ((ny1 : ℤ) * ((W : ℤ) + 1) + (nx1 : ℤ)) =
      sat src W ny1 nx1 := by
    have := integralFlat_natAccess src W H ny1 nx1 (by omega) (by omega)
    simpa using this
  have hsumx : ∀ r : ℕ, ∑ t ∈ Finset.Icc nx1 nx2, src (r * W + t) =
      (∑ t ∈ Finset.range (nx2 + 1), src (r * W + t)) -
        ∑ t ∈ Finset.range nx1, src (r * W + t) := by
    intro r
    rw [← Nat.Ico_succ_right, Finset.sum_Ico_eq_sub _ (by omega)]
  have hsum : (∑ r ∈ Finset.Icc ny1 ny2, ∑ t ∈ Finset.Icc nx1 nx2, src (r * W + t)) =
      sat src W (ny2 + 1) (nx2 + 1) - sat src W (ny2 + 1) nx1
        - sat src W ny1 (nx2 + 1) + sat src W ny1 nx1 := by
    rw [sat_eq, sat_eq, sat_eq, sat_eq]
    rw [← Nat.Ico_succ_right, Finset.sum_Ico_eq_sub _ (by omega : ny1 ≤ ny2 + 1)]
    rw [Finset.sum_congr rfl (fun r _ => hsumx r), Finset.sum_sub_distrib,
      Finset.sum_congr rfl (fun r (_ : r ∈ Finset.range ny1) => hsumx r), Finset.sum_sub_distrib]
    ring
  have hfx : (nx2 : ℤ) - (nx1 : ℤ) + 1 = ((nx2 + 1 - nx1 : ℕ) : ℤ) := by omega
  have hfy : (ny2 : ℤ) - (ny1 : ℤ) + 1 = ((ny2 + 1 - ny1 : ℕ) : ℤ) := by omega
  have hcount : ((min ((W : ℤ) - 1) ((x : ℤ) + radius) - max 0 ((x : ℤ) - radius) + 1) *
      (min ((H : ℤ) - 1) ((y : ℤ) + radius) - max 0 ((y : ℤ) - radius) + 1)) =
      (((nx2 + 1 - nx1) * (ny2 + 1 - ny1) : ℕ) : ℤ) := by
    rw [ex1, ex2, ey1, ey2, hfx, hfy]; push_cast; ring
  rw [boxFilterAt]
  rw [ex1, ex2, ey1, ey2] at hcount ⊢
  rw [hA, hB, hC, hD, hsum.symm]
  congr 1
  exact_mod_cast hcount

/-- A box filter of a constant buffer is that constant (at every
in-bounds pixel, for any nonnegative radius). -/
theorem boxFilterAt_const (src : ℕ → ℚ) (W H : ℕ) (c : ℚ)
    (hc : ∀ i, i < W * H → src i = c) (radius : ℤ) (hr : 0 ≤ radius)
    (x y : ℕ) (hx : x < W) (hy : y < H) :
    boxFilterAt src W H radius x y = c := by
  rw [boxFilterAt_windowMean src W H radius hr x y hx hy]
  set R := radius.toNat
  set nx1 := x - R
  set nx2 := min (W - 1) (x + R)
  set ny1 := y - R
  set ny2 := min (H - 1) (y + R)
  have hval : ∀ r ∈ Finset.Icc ny1 ny2, ∀ t ∈ Finset.Icc nx1 nx2, src (r * W + t) = c := by
    intro r hrm t htm
    rw [Finset.mem_Icc] at hrm htm
    apply hc
    have h1 : r ≤ H - 1 := le_trans hrm.2 (min_le_left _ _)
    have h2 : t ≤ W - 1 := le_trans htm.2 (min_le_left _ _)
    have hW : 0 < W := by omega
    have hH : 0 < H := by omega
    calc r * W + t < r * W + W := by omega
      _ = (r + 1) * W := by ring
      _ ≤ H * W := Nat.mul_le_mul_right W (by omega)
      _ = W * H := Nat.mul_comm _ _
  rw [Finset.sum_congr rfl (fun r hrm => Finset.sum_congr rfl (hval r hrm))]
  rw [Finset.sum_const, Finset.sum_const, Nat.card_Icc, Nat.card_Icc, smul_smul,
    nsmul_eq_mul]
  have hpos : (0 : ℚ) < (((nx2 + 1 - nx1) * (ny2 + 1 - ny1) : ℕ) : ℚ) := by
    have h0 : 0 < (nx2 + 1 - nx1) * (ny2 + 1 - ny1) := by
      apply Nat.mul_pos <;> omega
    exact_mod_cast h0
  rw [show (ny2 + 1 - ny1) * (nx2 + 1 - nx1) = (nx2 + 1 - nx1) * (ny2 + 1 - ny1) from
    Nat.mul_comm _ _]
  rw [mul_comm, mul_div_assoc, div_self (ne_of_gt hpos), mul_one]

/-- Flat-index version of `boxFilterAt_const`. -/
theorem boxFilterFlat_const (src : ℕ → ℚ) (W H : ℕ) (c : ℚ)
    (hc : ∀ i, i < W * H → src i = c) (radius : ℤ) (hr : 0 ≤ radius)
    (i : ℕ) (hi : i < W * H) :
    boxFilterFlat src W H radius i = c := by
  have hW : 0 < W := by
    rcases Nat.eq_zero_or_pos W with h | h
    · subst h; simp at hi
    · exact h
  exact boxFilterAt_const src W H c hc radius hr (i % W) (i / W)
    (Nat.mod_lt _ hW) (Nat.div_lt_iff_lt_mul hW |>.mpr (by rwa [mul_comm]))

/-- **C4** (amended).  For every nonnegative radius, `boxFilter` returns at
every pixel the mean of the `(2·radius+1)²` window clamped to the image
bounds — edge pixels use a smaller window and correspondingly smaller
divisor, with no wraparound or zero padding — and for radius `0` the
output equals the input.  (The original claim asserted identity for every
radius ≤ 0; that fails at radius `-2`, see the counterexample.) -/
theorem c4_boxFilter_clampedWindowMean (src : ℕ → ℚ) (W H : ℕ) (radius : ℤ)
    (hr : 0 ≤ radius) (x y : ℕ) (hx : x < W) (hy : y < H) :
    boxFilterAt src W H radius x y =
      (∑ r ∈ Finset.Icc (y - radius.toNat) (min (H - 1) (y + radius.toNat)),
        ∑ t ∈ Finset.Icc (x - radius.toNat) (min (W - 1) (x + radius.toNat)),
          src (r * W + t)) /
      (((min (W - 1) (x + radius.toNat) + 1 - (x - radius.toNat)) *
        (min (H - 1) (y + radius.toNat) + 1 - (y - radius.toNat)) : ℕ) : ℚ) ∧
    boxFilterAt src W H 0 x y = src (y * W + x) := by
  refine ⟨boxFilterAt_windowMean src W H radius hr x y hx hy, ?_⟩
  have h0 := boxFilterAt_windowMean src W H 0 le_rfl x y hx hy
  have hxm : min (W - 1) (x + (0 : ℤ).toNat) = x := by
    simp only [Int.toNat_zero, Nat.add_zero]; omega
  have hym : min (H - 1) (y + (0 : ℤ).toNat) = y := by
    simp only [Int.toNat_zero, Nat.add_zero]; omega
  rw [hxm, hym] at h0
  simp only [Int.toNat_zero, Nat.sub_zero] at h0
  rw [h0, Finset.Icc_self, Finset.Icc_self, Finset.sum_singleton, Finset.sum_singleton]
  norm_num

/-- Witness for C4: on the 3×3 buffer `[9,0,…,0]` with radius 1 at pixel
`(0,0)` the filter returns the mean `9/4` of the clamped 2×2 window. -/
theorem c4_boxFilter_witness :
    boxFilterAt (fun i => if i = 0 then (9 : ℚ) else 0) 3 3 1 0 0 = 9 / 4 := by
  have h := c4_boxFilter_clampedWindowMean (fun i => if i = 0 then (9 : ℚ) else 0)
    3 3 1 (by decide) 0 0 (by decide) (by decide)
  rw [h.1]
  rw [show (0 : ℕ) - (1 : ℤ).toNat = 0 from rfl,
    show (3 - 1) ⊓ (0 + (1 : ℤ).toNat) = 1 from rfl,
    show Finset.Icc (0 : ℕ) 1 = {0, 1} from rfl]
  norm_num [Finset.sum_pair]

/-- Counterexample for C4: radius `-2` is *not* the identity.  On a 3×3
buffer, the integral-image corner arithmetic at the interior pixel
`(1,1)` degenerates to the mean of the whole 3×3 window (the two negative
window extents cancel in the divisor), so the output differs from the
input wherever the buffer is not constant. -/
theorem c4_boxFilter_negRadius_counterexample :
    boxFilterAt (fun i => if i = 0 then (9 : ℚ) else 0) 3 3 (-2) 1 1 ≠
      (fun i => if i = 0 then (9 : ℚ) else 0) (1 * 3 + 1) := by
  simp only [boxFilterAt, integralFlat]
  norm_num [sat, rowSum, Finset.sum_range_succ]

/-!
## Binary erosion and trimap  (src/unnamed/part_004 lines 501–586)

`binaryErosion(mask, width, height, radius, borderValue)` and
`createTrimap(mask, width, height, fgThresh, bgThresh, erodeSize)`.
Pointwise embedding: the loop index `idx = y*width+x` is decoded as
`y = i / W`, `x = i % W`.
-/

/-- One output pixel of `binaryErosion`.  `allOnes` is the loop over the
`(2·radius+1)²` structuring element: an out-of-bounds sample fails the
test exactly when `borderValue === 0`, an in-bounds sample fails it
exactly when the mask there is `0`. -/
def binaryErosion (mask : ℕ → ℕ) (W H radius borderValue : ℕ) (i : ℕ) : ℕ :=
  let y : ℤ := (i / W : ℕ)
  let x : ℤ := (i % W : ℕ)
  if mask i = 0 then 0
  else if ∀ dy ∈ Finset.Icc (-(radius : ℤ)) (radius : ℤ),
      ∀ dx ∈ Finset.Icc (-(radius : ℤ)) (radius : ℤ),
      (y + dy < 0 ∨ (H : ℤ) ≤ y + dy ∨ x + dx < 0 ∨ (W : ℤ) ≤ x + dx → borderValue ≠ 0) ∧
      (¬(y + dy < 0 ∨ (H : ℤ) ≤ y + dy ∨ x + dx < 0 ∨ (W : ℤ) ≤ x + dx) →
        mask ((y + dy) * (W : ℤ) + (x + dx)).toNat ≠ 0)
  then 1 else 0

/-- `createTrimap`: threshold into binary foreground/background maps,
erode both (foreground with border value 0, background with border value
1), then combine into `{255, 0, 128}`. -/
def createTrimap (mask : ℕ → ℕ) (W H fgThresh bgThresh erodeSize : ℕ) (i : ℕ) : ℕ :=
  let isForeground : ℕ → ℕ := fun j => if fgThresh < mask j then 1 else 0
  let isBackground : ℕ → ℕ := fun j => if mask j < bgThresh then 1 else 0
  if binaryErosion isForeground W H erodeSize 0 i = 1 then 255
  else if binaryErosion isBackground W H erodeSize 1 i = 1 then 0
  else 128

/-- **C8.**  Every value of the trimap returned by `createTrimap` is
exactly one of `{0, 128, 255}`, for every input mask, dimensions,
thresholds, and erosion size. -/
theorem c8_createTrimap_three_valued (mask : ℕ → ℕ) (W H fgThresh bgThresh erodeSize i : ℕ) :
    createTrimap mask W H fgThresh bgThresh erodeSize i = 0 ∨
    createTrimap mask W H fgThresh bgThresh erodeSize i = 128 ∨
    createTrimap mask W H fgThresh bgThresh erodeSize i = 255 := by
  unfold createTrimap
  dsimp only
  split
  · exact Or.inr (Or.inr rfl)
  · split
    · exact Or.inl rfl
    · exact Or.inr (Or.inl rfl)

/-- **C9.**  `binaryErosion` is anti-extensive: for every binary mask,
radius, and border value 0 or 1, every output pixel is `≤` the
corresponding input pixel; in particular an output pixel is 1 only where
the input is 1, so erosion never adds foreground. -/
theorem c9_binaryErosion_antiExtensive (mask : ℕ → ℕ) (W H radius borderValue : ℕ)
    (hbin : ∀ j, mask j = 0 ∨ mask j = 1) (_hbv : borderValue = 0 ∨ borderValue = 1)
    (i : ℕ) :
    binaryErosion mask W H radius borderValue i ≤ mask i := by
  unfold binaryErosion
  dsimp only
  split
  · omega
  · have h1 : 1 ≤ mask i := by
      rcases hbin i with h | h
      · simp_all
      · omega
    split
    · exact h1
    · omega

/-- Witness for C9 at a concrete 2×1 binary mask, radius 1, border 0. -/
theorem c9_binaryErosion_witness :
    binaryErosion (fun j => if j < 2 then 1 else 0) 2 1 1 0 0 ≤
      (fun j => if j < 2 then (1 : ℕ) else 0) 0 := by
  exact c9_binaryErosion_antiExtensive (fun j => if j < 2 then 1 else 0) 2 1 1 0
    (fun j => by by_cases h : j < 2 <;> simp [h]) (Or.inl rfl) 0

/-!
## Heuristic-segmenter morphology  (src/unnamed/part_002 lines 770–819)

`morphErode(mask, width, height, iterations)` / `morphDilate`: per
iteration, snapshot the buffer, then recompute only interior pixels
(`1 ≤ x ≤ width-2`, `1 ≤ y ≤ height-2`) as the 3×3 min / max over the
snapshot.
-/

/-- One iteration of `morphErode`. -/
def morphErodePass (W H : ℕ) (m : ℕ → ℕ) : ℕ → ℕ := fun i =>
  if 1 ≤ i % W ∧ i % W < W - 1 ∧ 1 ≤ i / W ∧ i / W < H - 1 then
    min (m (i - W - 1)) (min (m (i - W)) (min (m (i - W + 1)) (min (m (i - 1))
      (min (m i) (min (m (i + 1)) (min (m (i + W - 1)) (min (m (i + W)) (m (i + W + 1)))))))))
  else m i

/-- One iteration of `morphDilate`. -/
def morphDilatePass (W H : ℕ) (m : ℕ → ℕ) : ℕ → ℕ := fun i =>
  if 1 ≤ i % W ∧ i % W < W - 1 ∧ 1 ≤ i / W ∧ i / W < H - 1 then
    max (m (i - W - 1)) (max (m (i - W)) (max (m (i - W + 1)) (max (m (i - 1))
      (max (m i) (max (m (i + 1)) (max (m (i + W - 1)) (max (m (i + W)) (m (i + W + 1)))))))))
  else m i

/-- `morphErode` = `iterations` sequential erosion passes. -/
def morphErode (m : ℕ → ℕ) (W H iterations : ℕ) : ℕ → ℕ :=
  (morphErodePass W H)^[iterations] m

/-- `morphDilate` = `iterations` sequential dilation passes. -/
def morphDilate (m : ℕ → ℕ) (W H iterations : ℕ) : ℕ → ℕ :=
  (morphDilatePass W H)^[iterations] m

/-- A border pixel (outermost row or column) fails the interior test. -/
theorem border_not_interior (W H x y : ℕ) (hx : x < W) (hy : y < H)
    (hb : x = 0 ∨ x = W - 1 ∨ y = 0 ∨ y = H - 1) :
    ¬(1 ≤ (y * W + x) % W ∧ (y * W + x) % W < W - 1 ∧
      1 ≤ (y * W + x) / W ∧ (y * W + x) / W < H - 1) := by
  have hW : 0 < W := by omega
  have hmod : (y * W + x) % W = x := by
    rw [Nat.mul_comm, Nat.mul_add_mod, Nat.mod_eq_of_lt hx]
  have hdiv : (y * W + x) / W = y := by
    rw [Nat.mul_comm, Nat.mul_add_div hW, Nat.div_eq_of_lt hx, Nat.add_zero]
  rw [hmod, hdiv]
  omega

/-- **C10.**  `morphErode` and `morphDilate` never modify pixels in the
outermost row or column: for every mask and iteration count, every border
pixel of the output equals the corresponding input pixel. -/
theorem c10_morphology_preserves_border (m : ℕ → ℕ) (W H iterations x y : ℕ)
    (hx : x < W) (hy : y < H) (hb : x = 0 ∨ x = W - 1 ∨ y = 0 ∨ y = H - 1) :
    morphErode m W H iterations (y * W + x) = m (y * W + x) ∧
    morphDilate m W H iterations (y * W + x) = m (y * W + x) := by
  have hni := border_not_interior W H x y hx hy hb
  constructor
  · induction iterations with
    | zero => rfl
    | succ n ih =>
      rw [morphErode, Function.iterate_succ_apply', morphErodePass, if_neg hni]
      exact ih
  · induction iterations with
    | zero => rfl
    | succ n ih =>
      rw [morphDilate, Function.iterate_succ_apply', morphDilatePass, if_neg hni]
      exact ih

/-- Witness for C10: 3×3 all-7 mask, 2 iterations, border pixel (0,1). -/
theorem c10_morphology_witness :
    morphErode (fun _ => 7) 3 3 2 (1 * 3 + 0) = 7 ∧
    morphDilate (fun _ => 7) 3 3 2 (1 * 3 + 0) = 7 := by
  exact c10_morphology_preserves_border (fun _ => 7) 3 3 2 0 1 (by decide) (by decide)
    (Or.inl rfl)

/-!
## Interactive refinement operators  (src/unnamed/part_002 lines 549–568 and 913–1027)

`applyRefinements` copies the cached baseline `state.originalResultData`
into a fresh `ImageData` and applies, in order and each one conditionally,
`applyEdgeAdjust` (if `edgeAdjust !== 0`), `applyFeather` (if
`feather > 0`) and `applySmooth` (if `smooth > 0`).  The RGBA buffer is a
flat byte function; the alpha of pixel `p` lives at index `4*p+3`.
-/

/-- One iteration of `applyEdgeAdjust`: snapshot the alpha channel, then
overwrite the alpha of every interior pixel with the 3×3 min (erode) or
max (grow) over the snapshot. -/
def edgeAdjustPass (W H : ℕ) (erode : Bool) (data : ℕ → ℕ) : ℕ → ℕ :=
  let alpha : ℕ → ℕ := fun p => data (4 * p + 3)
  fun j =>
    let p := j / 4
    if j % 4 = 3 ∧ 1 ≤ p % W ∧ p % W < W - 1 ∧ 1 ≤ p / W ∧ p / W < H - 1 then
      if erode then
        min (alpha (p - W - 1)) (min (alpha (p - W)) (min (alpha (p - W + 1))
          (min (alpha (p - 1)) (min (alpha p) (min (alpha (p + 1))
          (min (alpha (p + W - 1)) (min (alpha (p + W)) (alpha (p + W + 1)))))))))
      else
        max (alpha (p - W - 1)) (max (alpha (p - W)) (max (alpha (p - W + 1))
          (max (alpha (p - 1)) (max (alpha p) (max (alpha (p + 1))
          (max (alpha (p + W - 1)) (max (alpha (p + W)) (alpha (p + W + 1)))))))))
    else data j

/-- `applyEdgeAdjust(imageData, amount)`: `|amount|` sequential passes,
eroding when `amount < 0` and dilating when `amount > 0`. -/
def applyEdgeAdjust (W H : ℕ) (data : ℕ → ℕ) (amount : ℤ) : ℕ → ℕ :=
  (edgeAdjustPass W H (decide (amount < 0)))^[amount.natAbs] data

/-- `applyFeather(imageData, radius)`: mark edge pixels (interior pixels
with fractional alpha, or a > 10 alpha jump to a 4-neighbour), then box
blur the alpha of every pixel within `radius` of an edge pixel, and write
the rounded result back for every pixel. -/
def applyFeather (W H : ℕ) (data : ℕ → ℕ) (radius : ℤ) : ℕ → ℕ :=
  let alpha : ℕ → ℚ := fun p => data (4 * p + 3)
  let isEdge : ℕ → Prop := fun p =>
    (1 ≤ p % W ∧ p % W < W - 1 ∧ 1 ≤ p / W ∧ p / W < H - 1) ∧
    (0 < alpha p ∧ alpha p < 255 ∨
      |alpha p - alpha (p - 1)| > 10 ∨ |alpha p - alpha (p + 1)| > 10 ∨
      |alpha p - alpha (p - W)| > 10 ∨ |alpha p - alpha (p + W)| > 10)
  let blurred : ℕ → ℚ := fun p =>
    let x : ℤ := (p % W : ℕ)
    let y : ℤ := (p / W : ℕ)
    if radius ≤ x ∧ x < (W : ℤ) - radius ∧ radius ≤ y ∧ y < (H : ℤ) - radius then
      if ∃ dy ∈ Finset.Icc (-radius) radius, ∃ dx ∈ Finset.Icc (-radius) radius,
          isEdge ((y + dy) * (W : ℤ) + (x + dx)).toNat then
        (∑ dy ∈ Finset.Icc (-radius) radius, ∑ dx ∈ Finset.Icc (-radius) radius,
          alpha ((y + dy) * (W : ℤ) + (x + dx)).toNat) /
          (((2 * radius + 1) * (2 * radius + 1) : ℤ) : ℚ)  -- `count` after the full loop
      else alpha p
    else alpha p
  fun j => if j % 4 = 3 ∧ j / 4 < W * H then jsClampByte (jsRound (blurred (j / 4))) else data j

/-- `applySmooth(imageData, strength)`: for interior pixels with alpha
strictly between 5 and 250, blend the alpha with the median of a
`(2·⌈strength/2⌉+1)²` neighbourhood, blend fraction `strength/10`. -/
def applySmooth (W H : ℕ) (data : ℕ → ℕ) (strength : ℤ) : ℕ → ℕ :=
  let alpha : ℕ → ℕ := fun p => data (4 * p + 3)
  let radius : ℤ := ⌈(strength : ℚ) / 2⌉
  fun j =>
    let p := j / 4
    let x : ℤ := (p % W : ℕ)
    let y : ℤ := (p / W : ℕ)
    if j % 4 = 3 ∧ radius ≤ x ∧ x < (W : ℤ) - radius ∧ radius ≤ y ∧ y < (H : ℤ) - radius ∧
        5 < alpha p ∧ alpha p < 250 then
      let window : List ℕ :=
        ((Finset.Icc (-radius) radius).sort (· ≤ ·)).flatMap fun dy =>
          ((Finset.Icc (-radius) radius).sort (· ≤ ·)).map fun dx =>
            alpha ((y + dy) * (W : ℤ) + (x + dx)).toNat
      let median : ℕ := (window.mergeSort (· ≤ ·)).getD (window.length / 2) 0
      jsClampByte (jsRound ((alpha p : ℚ) * (1 - strength / 10) + (median : ℚ) * (strength / 10)))
    else data j

/-- `applyRefinements`, parametrised by the slider values and the cached
baseline buffer (`state.originalResultData`): copy the baseline, then
conditionally apply grow/shrink, feather, smooth in that order. -/
def applyRefinements (data : ℕ → ℕ) (W H : ℕ) (feather edgeAdjust smooth : ℤ) : ℕ → ℕ :=
  let d1 := if edgeAdjust ≠ 0 then applyEdgeAdjust W H data edgeAdjust else data
  let d2 := if 0 < feather then applyFeather W H d1 feather else d1
  if 0 < smooth then applySmooth W H d2 smooth else d2

/-- **C3.**  Applying the interactive refinement operation with all three
parameters zero returns a buffer byte-identical to the baseline: with
grow/shrink = feather = smooth = 0 none of the three operators runs, and
the fresh copy of the cached baseline is returned unchanged. -/
theorem c3_applyRefinements_zero_identity (data : ℕ → ℕ) (W H : ℕ) (j : ℕ) :
    applyRefinements data W H 0 0 0 j = data j := by
  simp [applyRefinements]

/-!
## Guided filter  (src/unnamed/part_004 lines 68–169)

`guidedFilter(mask, rgbData, width, height, radius, eps)`.  All
`Float32Array` intermediates are pointwise functions of the inputs:
each JavaScript loop that fills an output array from fully-computed
inputs becomes the corresponding per-cell expression.
-/

/-- Grayscale (luminance) conversion `(R*0.299 + G*0.587 + B*0.114)/255`
of an interleaved RGBA byte buffer, used identically by `guidedFilter`
and `computeGradients`. -/
def grayAt (rgbData : ℕ → ℕ) (i : ℕ) : ℚ :=
  ((rgbData (i * 4) : ℚ) * 0.299 + (rgbData (i * 4 + 1) : ℚ) * 0.587 +
    (rgbData (i * 4 + 2) : ℚ) * 0.114) / 255

/-- `multiply(a, b)`: element-wise product. -/
def multiply (a b : ℕ → ℚ) : ℕ → ℚ := fun i => a i * b i

/-- One output cell of `guidedFilter`:
`q = clamp(meanA·I + meanB, 0, 1)` with `a = covIP/(varI + eps)`,
`b = meanP - a·meanI`, and all means computed by `boxFilter`. -/
def guidedFilter (mask : ℕ → ℕ) (rgbData : ℕ → ℕ) (W H : ℕ) (radius : ℤ) (eps : ℚ)
    (i : ℕ) : ℚ :=
  let p : ℕ → ℚ := fun j => (mask j : ℚ) / 255
  let I : ℕ → ℚ := grayAt rgbData
  let meanI := boxFilterFlat I W H radius
  let meanP := boxFilterFlat p W H radius
  let meanIP := boxFilterFlat (multiply I p) W H radius
  let meanII := boxFilterFlat (multiply I I) W H radius
  let a : ℕ → ℚ := fun j => (meanIP j - meanI j * meanP j) / ((meanII j - meanI j * meanI j) + eps)
  let b : ℕ → ℚ := fun j => meanP j - a j * meanI j
  let meanA := boxFilterFlat a W H radius
  let meanB := boxFilterFlat b W H radius
  clamp01 (meanA i * I i + meanB i)

/-!
## Uncertainty detection  (src/unnamed/part_004 lines 182–234)
-/

/-- The thresholding loop of `detectUncertainty`: 0 = uncertain
(mask value strictly between the thresholds), 1 = certain. -/
def rawUncertainty (mask : ℕ → ℚ) (lowThresh highThresh : ℚ) : ℕ → ℚ := fun i =>
  if lowThresh < mask i ∧ mask i < highThresh then 0 else 1

/-- `dilateUncertainty(uncertainty, width, height, radius)`: a pixel at
distance ≥ `radius` from every image border that is certain but has an
uncertain neighbour within the `(2·radius+1)²` window becomes uncertain. -/
def dilateUncertainty (u : ℕ → ℚ) (W H radius : ℕ) : ℕ → ℚ := fun i =>
  let x := i % W
  let y := i / W
  if (radius ≤ x ∧ x < W - radius ∧ radius ≤ y ∧ y < H - radius) ∧ u i = 1 ∧
      ∃ dy ∈ Finset.Icc (-(radius : ℤ)) (radius : ℤ),
        ∃ dx ∈ Finset.Icc (-(radius : ℤ)) (radius : ℤ),
          u ((((y : ℤ) + dy) * (W : ℤ) + ((x : ℤ) + dx)).toNat) = 0
  then 0 else u i

/-- `detectUncertainty(mask, width, height, lowThresh, highThresh)`:
threshold, then dilate the uncertain region with radius 3. -/
def detectUncertainty (mask : ℕ → ℚ) (W H : ℕ) (lowThresh highThresh : ℚ) : ℕ → ℚ :=
  dilateUncertainty (rawUncertainty mask lowThresh highThresh) W H 3

/-!
## Bilinear upscale  (src/unnamed/part_004 lines 744–776)
-/

/-- One output cell of `bilinearUpscale(src, srcW, srcH, dstW, dstH)`:
4-sample weighted interpolation with `Math.floor` sample coordinates. -/
def bilinearUpscale (src : ℕ → ℚ) (srcW srcH dstW dstH : ℕ) : ℕ → ℚ := fun i =>
  let x := i % dstW
  let y := i / dstW
  let srcX : ℚ := (x : ℚ) * ((srcW : ℚ) / (dstW : ℚ))
  let srcY : ℚ := (y : ℚ) * ((srcH : ℚ) / (dstH : ℚ))
  let x1 : ℕ := (⌊srcX⌋).toNat
  let y1 : ℕ := (⌊srcY⌋).toNat
  let x2 : ℕ := min (x1 + 1) (srcW - 1)
  let y2 : ℕ := min (y1 + 1) (srcH - 1)
  let xFrac : ℚ := srcX - (x1 : ℚ)
  let yFrac : ℚ := srcY - (y1 : ℚ)
  let v11 := src (y1 * srcW + x1)
  let v12 := src (y1 * srcW + x2)
  let v21 := src (y2 * srcW + x1)
  let v22 := src (y2 * srcW + x2)
  let v1 := v11 * (1 - xFrac) + v12 * xFrac
  let v2 := v21 * (1 - xFrac) + v22 * xFrac
  v1 * (1 - yFrac) + v2 * yFrac

/-!
## Trimap colour-sample matting  (src/unnamed/part_004 lines 599–739)
-/

/-- An RGB triple read from the RGBA buffer at pixel `idx`. -/
def colorAt (rgbData : ℕ → ℕ) (idx : ℕ) : ℕ × ℕ × ℕ :=
  (rgbData (idx * 4), rgbData (idx * 4 + 1), rgbData (idx * 4 + 2))

/-- The pixel-index list a `sampleRegionColors` collection loop builds for
one trimap value (`fgIndices` / `bgIndices`). -/
def regionIndices (trimap : ℕ → ℕ) (size v : ℕ) : List ℕ :=
  (List.range size).filter fun i => trimap i == v

/-- The sampling loop `for (i = 0; i < len; i += step)` with
`step = max(1, ⌊len / maxSamples⌋)`: it visits `⌈len / step⌉` indices. -/
def sampleColors (rgbData : ℕ → ℕ) (indices : List ℕ) (maxSamples : ℕ) : List (ℕ × ℕ × ℕ) :=
  let step := max 1 (indices.length / maxSamples)
  (List.range ((indices.length + step - 1) / step)).map fun k =>
    colorAt rgbData (indices.getD (k * step) 0)

/-- `sampleRegionColors(rgbData, trimap, width, height, maxSamples)`,
returning (foreground samples, background samples). -/
def sampleRegionColors (rgbData : ℕ → ℕ) (trimap : ℕ → ℕ) (W H maxSamples : ℕ) :
    List (ℕ × ℕ × ℕ) × List (ℕ × ℕ × ℕ) :=
  (sampleColors rgbData (regionIndices trimap (W * H) 255) maxSamples,
   sampleColors rgbData (regionIndices trimap (W * H) 0) maxSamples)

/-- `colorDistance(c1, c2) = Math.sqrt(2·dr² + 4·dg² + 3·db²)`; the
square root is the explicit parameter `sq`. -/
def colorDistance (sq : ℚ → ℚ) (c1 c2 : ℕ × ℕ × ℕ) : ℚ :=
  let dr : ℚ := (c1.1 : ℚ) - (c2.1 : ℚ)
  let dg : ℚ := (c1.2.1 : ℚ) - (c2.2.1 : ℚ)
  let db : ℚ := (c1.2.2 : ℚ) - (c2.2.2 : ℚ)
  sq (2 * dr * dr + 4 * dg * dg + 3 * db * db)

/-- `minDistanceToSet`: running minimum over the sample list.  For an
empty list JavaScript returns `Infinity`; every use in the code is behind
the ≥ 10-samples guard, so the empty case (embedded as junk 0) is
unreachable there. -/
def minDistanceToSet (sq : ℚ → ℚ) (color : ℕ × ℕ × ℕ) : List (ℕ × ℕ × ℕ) → ℚ
  | [] => 0
  | c :: rest => rest.foldl (fun m c2 => min m (colorDistance sq color c2)) (colorDistance sq color c)

/-- One output cell of `refineUnknownRegions(mask, trimap, rgbData, width,
height, samples)`: pass-through when either sample set has fewer than 10
samples; otherwise, for unknown (128) trimap pixels, blend the mask value
with the colour-distance alpha at weight 0.6 and clamp. -/
def refineUnknownRegions (sq : ℚ → ℚ) (mask : ℕ → ℚ) (trimap : ℕ → ℕ) (rgbData : ℕ → ℕ)
    (W H : ℕ) (samples : List (ℕ × ℕ × ℕ) × List (ℕ × ℕ × ℕ)) : ℕ → ℚ := fun i =>
  if samples.1.length < 10 ∨ samples.2.length < 10 then mask i
  else if i < W * H ∧ trimap i = 128 then
    let pixelColor := colorAt rgbData i
    let distToFg := minDistanceToSet sq pixelColor samples.1
    let distToBg := minDistanceToSet sq pixelColor samples.2
    let colorBasedAlpha := distToBg / (distToFg + distToBg + 0.001)
    clamp01 (mask i * (1 - 0.6) + colorBasedAlpha * 0.6)
  else mask i

/-- The mask-to-bytes conversion at the top of `trimapAlphaMatting`. -/
def maskTo255 (mask : ℕ → ℚ) : ℕ → ℕ := fun i => jsByteWrap (jsRound (mask i * 255))

/-- `trimapAlphaMatting(mask, rgbData, width, height, options)`: build the
trimap from the rounded mask, sample region colours (maxSamples 1000),
and refine the unknown region. -/
def trimapAlphaMatting (sq : ℚ → ℚ) (mask : ℕ → ℚ) (rgbData : ℕ → ℕ) (W H : ℕ)
    (fgThresh bgThresh erodeSize : ℕ) : ℕ → ℚ :=
  let trimap := createTrimap (maskTo255 mask) W H fgThresh bgThresh erodeSize
  let samples := sampleRegionColors rgbData trimap W H 1000
  refineUnknownRegions sq mask trimap rgbData W H samples

/-!
## Sobel gradients and gradient-aware feathering
(src/unnamed/part_004 lines 240–369)
-/

/-- The flattened 3×3 Sobel X kernel. -/
def sobelX : List ℤ := [-1, 0, 1, -2, 0, 2, -1, 0, 1]

/-- The flattened 3×3 Sobel Y kernel. -/
def sobelY : List ℤ := [-1, -2, -1, 0, 0, 0, 1, 2, 1]

/-- Unnormalised Sobel gradient magnitude: `sqrt(gx²+gy²)` at interior
pixels (the `Float32Array` stays 0 on the one-pixel border). -/
def rawGradient (sq : ℚ → ℚ) (rgbData : ℕ → ℕ) (W H : ℕ) : ℕ → ℚ := fun i =>
  let x := i % W
  let y := i / W
  if 1 ≤ x ∧ x < W - 1 ∧ 1 ≤ y ∧ y < H - 1 then
    let g : ℤ → ℤ → ℚ := fun dy dx => grayAt rgbData (((y : ℤ) + dy) * W + ((x : ℤ) + dx)).toNat
    let gx : ℚ := ∑ dy ∈ Finset.Icc (-1 : ℤ) 1, ∑ dx ∈ Finset.Icc (-1 : ℤ) 1,
      g dy dx * ((sobelX.getD ((dy + 1) * 3 + (dx + 1)).toNat 0 : ℤ) : ℚ)
    let gy : ℚ := ∑ dy ∈ Finset.Icc (-1 : ℤ) 1, ∑ dx ∈ Finset.Icc (-1 : ℤ) 1,
      g dy dx * ((sobelY.getD ((dy + 1) * 3 + (dx + 1)).toNat 0 : ℤ) : ℚ)
    sq (gx * gx + gy * gy)
  else 0

/-- The running maximum `maxGrad` of the normalisation loop. -/
def maxGradient (sq : ℚ → ℚ) (rgbData : ℕ → ℕ) (W H : ℕ) : ℚ :=
  ((List.range (W * H)).map (rawGradient sq rgbData W H)).foldl max 0

/-- `computeGradients(rgbData, width, height)`: Sobel magnitude map,
normalised by `maxGrad` when `maxGrad > 0`. -/
def computeGradients (sq : ℚ → ℚ) (rgbData : ℕ → ℕ) (W H : ℕ) : ℕ → ℚ := fun i =>
  if 0 < maxGradient sq rgbData W H then
    rawGradient sq rgbData W H i / maxGradient sq rgbData W H
  else rawGradient sq rgbData W H i

/-- The edge map of `gradientAwareFeathering`: an interior pixel whose
mask value differs from some 4-neighbour by more than 0.1. -/
def featherIsEdge (mask : ℕ → ℚ) (W H : ℕ) (p : ℕ) : Prop :=
  (1 ≤ p % W ∧ p % W < W - 1 ∧ 1 ≤ p / W ∧ p / W < H - 1) ∧
  (|mask p - mask (p - 1)| > 0.1 ∨ |mask p - mask (p + 1)| > 0.1 ∨
   |mask p - mask (p - W)| > 0.1 ∨ |mask p - mask (p + W)| > 0.1)

instance (mask : ℕ → ℚ) (W H p : ℕ) : Decidable (featherIsEdge mask W H p) := by
  unfold featherIsEdge; infer_instance

/-- One output cell of `gradientAwareFeathering(mask, gradients,
uncertainty, width, height, featherRadius)`: for pixels at distance
≥ `featherRadius` from the borders that are uncertain or on an edge,
average the mask over a disc of adaptive radius
`round(featherRadius·(1 − gradient·0.7))` with linear distance falloff. -/
def gradientAwareFeathering (sq : ℚ → ℚ) (mask gradients uncertainty : ℕ → ℚ)
    (W H featherRadius : ℕ) : ℕ → ℚ := fun i =>
  let x := i % W
  let y := i / W
  if featherRadius ≤ x ∧ x < W - featherRadius ∧ featherRadius ≤ y ∧ y < H - featherRadius then
    if 1/2 < uncertainty i ∧ ¬featherIsEdge mask W H i then mask i
    else
      let adaptiveRadius : ℤ := jsRound ((featherRadius : ℚ) * (1 - gradients i * 0.7))
      if adaptiveRadius < 1 then mask i
      else
        let dist : ℤ → ℤ → ℚ := fun dy dx => sq ((dx * dx + dy * dy : ℤ) : ℚ)
        let weight : ℤ → ℤ → ℚ := fun dy dx => 1 - dist dy dx / (adaptiveRadius : ℚ)
        let s : ℚ := ∑ dy ∈ Finset.Icc (-adaptiveRadius) adaptiveRadius,
          ∑ dx ∈ Finset.Icc (-adaptiveRadius) adaptiveRadius,
            if dist dy dx ≤ (adaptiveRadius : ℚ) then
              mask ((((y : ℤ) + dy) * (W : ℤ) + ((x : ℤ) + dx)).toNat) * weight dy dx
            else 0
        let weightSum : ℚ := ∑ dy ∈ Finset.Icc (-adaptiveRadius) adaptiveRadius,
          ∑ dx ∈ Finset.Icc (-adaptiveRadius) adaptiveRadius,
            if dist dy dx ≤ (adaptiveRadius : ℚ) then weight dy dx else 0
        if 0 < weightSum then s / weightSum else mask i
  else mask i

/-!
## Mask refinement pipeline  (src/unnamed/part_004 lines 790–875)
-/

/-- The per-method parameter preset of `refineMask`. -/
structure RefineParams where
  guidedFilterRadius : ℤ
  guidedFilterEps : ℚ
  trimapFgThreshold : ℕ
  trimapBgThreshold : ℕ
  trimapErodeSize : ℕ
  featherRadius : ℕ
  hardenEdges : Bool

/-- The processing method: `'matting'` (soft edges) or `'segmentation'`
(hard edges). -/
inductive MaskMethod
  | matting
  | segmentation

/-- The parameter table of `refineMask`. -/
def paramsFor : MaskMethod → RefineParams
  | .segmentation =>
    { guidedFilterRadius := 4, guidedFilterEps := 0.01, trimapFgThreshold := 200,
      trimapBgThreshold := 30, trimapErodeSize := 8, featherRadius := 2, hardenEdges := true }
  | .matting =>
    { guidedFilterRadius := 8, guidedFilterEps := 0.001, trimapFgThreshold := 240,
      trimapBgThreshold := 10, trimapErodeSize := 5, featherRadius := 4, hardenEdges := false }

/-- Step 1 of `refineMask`: `maskFloat[i] = rawMask[i]/255`.  The loop
runs over `rawMask.length`; writes beyond `maskWidth*maskHeight` are
dropped (out-of-range typed-array writes are no-ops) and cells the loop
never reaches keep the `Float32Array` initial value 0. -/
def rmMaskFloat (rawMask : ℕ → ℕ) (rawLen mw mh : ℕ) : ℕ → ℚ := fun i =>
  if i < mw * mh ∧ i < rawLen then (rawMask i : ℚ) / 255 else 0

/-- Step 2: uncertainty at model resolution (thresholds 0.1 / 0.9). -/
def rmUncertaintySmall (rawMask : ℕ → ℕ) (rawLen mw mh : ℕ) : ℕ → ℚ :=
  detectUncertainty (rmMaskFloat rawMask rawLen mw mh) mw mh 0.1 0.9

/-- Step 3: bilinear upscale of the mask to image resolution. -/
def rmUpscaledMask (rawMask : ℕ → ℕ) (rawLen mw mh iw ih : ℕ) : ℕ → ℚ :=
  bilinearUpscale (rmMaskFloat rawMask rawLen mw mh) mw mh iw ih

/-- Step 4: bilinear upscale of the uncertainty map. -/
def rmUncertainty (rawMask : ℕ → ℕ) (rawLen mw mh iw ih : ℕ) : ℕ → ℚ :=
  bilinearUpscale (rmUncertaintySmall rawMask rawLen mw mh) mw mh iw ih

/-- Step 5: convert the upscaled mask to bytes
(`Math.round(upscaledMask[i]*255)` into a `Uint8Array`). -/
def rmMaskUint8 (rawMask : ℕ → ℕ) (rawLen mw mh iw ih : ℕ) : ℕ → ℕ :=
  maskTo255 (rmUpscaledMask rawMask rawLen mw mh iw ih)

/-- Step 6: guided filter of the upscaled mask against the RGBA guide. -/
def rmGuided (rawMask : ℕ → ℕ) (rawLen mw mh : ℕ) (rgbData : ℕ → ℕ) (iw ih : ℕ)
    (method : MaskMethod) : ℕ → ℚ :=
  guidedFilter (rmMaskUint8 rawMask rawLen mw mh iw ih) rgbData iw ih
    (paramsFor method).guidedFilterRadius (paramsFor method).guidedFilterEps

/-- Step 7: trimap-based colour-sample refinement. -/
def rmTrimapRefined (sq : ℚ → ℚ) (rawMask : ℕ → ℕ) (rawLen mw mh : ℕ) (rgbData : ℕ → ℕ)
    (iw ih : ℕ) (method : MaskMethod) : ℕ → ℚ :=
  trimapAlphaMatting sq (rmGuided rawMask rawLen mw mh rgbData iw ih method) rgbData iw ih
    (paramsFor method).trimapFgThreshold (paramsFor method).trimapBgThreshold
    (paramsFor method).trimapErodeSize

/-- Steps 8–9: Sobel gradients and gradient-aware feathering. -/
def rmFeathered (sq : ℚ → ℚ) (rawMask : ℕ → ℕ) (rawLen mw mh : ℕ) (rgbData : ℕ → ℕ)
    (iw ih : ℕ) (method : MaskMethod) : ℕ → ℚ :=
  gradientAwareFeathering sq (rmTrimapRefined sq rawMask rawLen mw mh rgbData iw ih method)
    (computeGradients sq rgbData iw ih) (rmUncertainty rawMask rawLen mw mh iw ih) iw ih
    (paramsFor method).featherRadius

/-- The segmentation-mode edge-hardening block of step 10, applied to the
already-clamped value: the piecewise mid-range push followed by the two
sequential hard clips at 0.15 and 0.85. -/
def hardenValue (v : ℚ) : ℚ :=
  let v1 := if 0.1 < v ∧ v < 0.9 then (if v < 0.5 then v * 0.5 else 1 - (1 - v) * 0.5) else v
  let v2 := if v1 < 0.15 then 0 else v1
  if 0.85 < v2 then 1 else v2

/-- Step 10: clamp to `[0,1]`, harden when `hardenEdges`, and scale. -/
def finalizeValue (hardenEdges : Bool) (v : ℚ) : ℚ :=
  if hardenEdges then hardenValue (clamp01 v) else clamp01 v

/-- `refineMask(rawMask, maskWidth, maskHeight, rgbData, imageWidth,
imageHeight, method)`: the full pipeline, returning the refined byte mask
at image resolution. -/
def refineMask (sq : ℚ → ℚ) (rawMask : ℕ → ℕ) (rawLen mw mh : ℕ) (rgbData : ℕ → ℕ)
    (iw ih : ℕ) (method : MaskMethod) : ℕ → ℕ := fun i =>
  jsByteWrap (jsRound
    (finalizeValue (paramsFor method).hardenEdges
      (rmFeathered sq rawMask rawLen mw mh rgbData iw ih method i) * 255))

/-- The edge-hardening map exactly as claim C7 words it: for `v` strictly
between 0.1 and 0.9 replace `v` by `v·0.5` when `v < 0.5` and by
`1−(1−v)·0.5` otherwise; afterwards any value below 0.15 becomes 0 and
any value above 0.85 becomes 1. -/
def hardenClaimC7 (v : ℚ) : ℚ :=
  let w := if 0.1 < v ∧ v < 0.9 then (if v < 0.5 then v * 0.5 else 1 - (1 - v) * 0.5) else v
  if w < 0.15 then 0 else if 0.85 < w then 1 else w

/-- **C7.**  In hard ('segmentation') mode the final conversion applies
the edge-hardening pass of `hardenClaimC7` to the clamped feathered
value; soft ('matting') mode applies no such pass. -/
theorem c7_edge_hardening (sq : ℚ → ℚ) (rawMask : ℕ → ℕ) (rawLen mw mh : ℕ)
    (rgbData : ℕ → ℕ) (iw ih : ℕ) (i : ℕ) :
    refineMask sq rawMask rawLen mw mh rgbData iw ih .segmentation i =
      jsByteWrap (jsRound (hardenClaimC7
        (clamp01 (rmFeathered sq rawMask rawLen mw mh rgbData iw ih .segmentation i)) * 255)) ∧
    refineMask sq rawMask rawLen mw mh rgbData iw ih .matting i =
      jsByteWrap (jsRound
        (clamp01 (rmFeathered sq rawMask rawLen mw mh rgbData iw ih .matting i) * 255)) := by
  have hh : ∀ v : ℚ, hardenValue v = hardenClaimC7 v := by
    intro v
    unfold hardenValue hardenClaimC7
    dsimp only
    split_ifs <;> first | rfl | linarith
  constructor
  · rw [refineMask, finalizeValue]
    norm_num [paramsFor, hh]
  · rw [refineMask, finalizeValue]
    norm_num [paramsFor]

/-- **C5.**  If either colour-sample set contains fewer than 10 samples,
`refineUnknownRegions` returns the input mask unchanged at every pixel (a
non-fatal fallback), and consequently the `trimapAlphaMatting` step of
the pipeline passes the pre-matting mask through unchanged. -/
theorem c5_insufficient_samples_passthrough (sq : ℚ → ℚ) (mask : ℕ → ℚ)
    (trimap : ℕ → ℕ) (rgbData : ℕ → ℕ) (W H : ℕ)
    (samples : List (ℕ × ℕ × ℕ) × List (ℕ × ℕ × ℕ))
    (hfew : samples.1.length < 10 ∨ samples.2.length < 10) (i : ℕ) :
    refineUnknownRegions sq mask trimap rgbData W H samples i = mask i ∧
    (∀ fgT bgT erodeSize,
      (sampleRegionColors rgbData
        (createTrimap (maskTo255 mask) W H fgT bgT erodeSize) W H 1000).1.length < 10 ∨
      (sampleRegionColors rgbData
        (createTrimap (maskTo255 mask) W H fgT bgT erodeSize) W H 1000).2.length < 10 →
      trimapAlphaMatting sq mask rgbData W H fgT bgT erodeSize i = mask i) := by
  constructor
  · rw [refineUnknownRegions, if_pos hfew]
  · intro fgT bgT erodeSize hfew2
    rw [trimapAlphaMatting]
    rw [refineUnknownRegions, if_pos hfew2]

/-- Witness for C5: with empty sample sets the refinement step returns
the input mask value unchanged. -/
theorem c5_insufficient_samples_witness :
    refineUnknownRegions (fun _ => 0) (fun _ => 1/2) (fun _ => 128) (fun _ => 128)
      1 1 ([], []) 0 = (1 : ℚ) / 2 := by
  exact (c5_insufficient_samples_passthrough (fun _ => 0) (fun _ => 1/2) (fun _ => 128)
    (fun _ => 128) 1 1 ([], []) (Or.inl (by decide)) 0).1

/-!
## Defringing  (src/unnamed/part_004 lines 386–483)

`defringe(imageData, width, height, searchRadius, alphaLow, alphaHigh)`
mutates the RGBA buffer in place while scanning pixels in row-major
order, so it is embedded as a left fold of a per-pixel update over
`List.range (width*height)`.  The foreground map `isForeground` is built
once, from the buffer as it was on entry (alphas are never written, so
the two coincide throughout).
-/

/-- The `(dy, dx)` visiting order of the expanding-square perimeter scan
at radius `r`: `dy` then `dx` ascending, keeping only perimeter cells
(`|dx| = r` or `|dy| = r`). -/
def scanOffsets (r : ℕ) : List (ℤ × ℤ) :=
  ((Finset.Icc (-(r : ℤ)) (r : ℤ)).sort (· ≤ ·)).flatMap fun dy =>
    (((Finset.Icc (-(r : ℤ)) (r : ℤ)).sort (· ≤ ·)).filter fun dx =>
      |dx| == (r : ℤ) || |dy| == (r : ℤ)).map fun dx => (dy, dx)

/-- Scanning one perimeter ring: keep the in-bounds foreground pixel of
least squared distance (first one wins ties, as `dist < bestDist` is
strict); `none` when the ring holds no foreground pixel. -/
def ringScan (fg : ℕ → Bool) (data : ℕ → ℕ) (W H : ℕ) (x y : ℤ) (r : ℕ) :
    Option (ℤ × ℕ × ℕ × ℕ) :=
  (scanOffsets r).foldl
    (fun best d =>
      let ny := y + d.1
      let nx := x + d.2
      if 0 ≤ ny ∧ ny < (H : ℤ) ∧ 0 ≤ nx ∧ nx < (W : ℤ) then
        let nIdx := (ny * (W : ℤ) + nx).toNat
        if fg nIdx then
          let dist := d.2 * d.2 + d.1 * d.1
          match best with
          | none => some (dist, data (4 * nIdx), data (4 * nIdx + 1), data (4 * nIdx + 2))
          | some b =>
            if dist < b.1 then some (dist, data (4 * nIdx), data (4 * nIdx + 1), data (4 * nIdx + 2))
            else best
        else best
      else best)
    none

/-- The ring loop `for (r = 1; r <= searchRadius && !found; r++)`:
scan rings of growing radius until one holds a foreground pixel. -/
def ringSearch (fg : ℕ → Bool) (data : ℕ → ℕ) (W H : ℕ) (x y : ℤ) :
    ℕ → ℕ → Option (ℤ × ℕ × ℕ × ℕ)
  | 0, _ => none
  | fuel + 1, r =>
    match ringScan fg data W H x y r with
    | some res => some res
    | none => ringSearch fg data W H x y fuel (r + 1)

/-- The no-foreground-found fallback: inverse-distance, alpha-weighted
RGB sums over all in-bounds neighbours more opaque than the current
pixel.  Returns `(sumR, sumG, sumB, sumWeight)`. -/
def defringeFallback (sq : ℚ → ℚ) (data : ℕ → ℕ) (W H : ℕ) (x y : ℤ)
    (searchRadius alpha : ℕ) : ℚ × ℚ × ℚ × ℚ :=
  let R : ℤ := (searchRadius : ℤ)
  let inB : ℤ → ℤ → Prop := fun dy dx =>
    0 ≤ y + dy ∧ y + dy < (H : ℤ) ∧ 0 ≤ x + dx ∧ x + dx < (W : ℤ)
  let nIdx : ℤ → ℤ → ℕ := fun dy dx => ((y + dy) * (W : ℤ) + (x + dx)).toNat
  let keep : ℤ → ℤ → Prop := fun dy dx => inB dy dx ∧ alpha < data (4 * nIdx dy dx + 3)
  let w : ℤ → ℤ → ℚ := fun dy dx =>
    ((data (4 * nIdx dy dx + 3) : ℚ) / 255) / (sq ((dx * dx + dy * dy : ℤ) : ℚ) + 1)
  (∑ dy ∈ Finset.Icc (-R) R, ∑ dx ∈ Finset.Icc (-R) R,
      if keep dy dx then (data (4 * nIdx dy dx) : ℚ) * w dy dx else 0,
   ∑ dy ∈ Finset.Icc (-R) R, ∑ dx ∈ Finset.Icc (-R) R,
      if keep dy dx then (data (4 * nIdx dy dx + 1) : ℚ) * w dy dx else 0,
   ∑ dy ∈ Finset.Icc (-R) R, ∑ dx ∈ Finset.Icc (-R) R,
      if keep dy dx then (data (4 * nIdx dy dx + 2) : ℚ) * w dy dx else 0,
   ∑ dy ∈ Finset.Icc (-R) R, ∑ dx ∈ Finset.Icc (-R) R,
      if keep dy dx then w dy dx else 0)

/-- Processing one pixel of the `defringe` scan: skip pixels whose alpha
is outside the open band `(alphaLow, alphaHigh)`; otherwise find the
replacement RGB (nearest-ring foreground pixel, else the weighted
fallback when its weight is positive, else the pixel's own RGB) and write
it to the three RGB bytes of the pixel, leaving alpha untouched. -/
def defringeStep (sq : ℚ → ℚ) (fg : ℕ → Bool) (W H searchRadius low high : ℕ)
    (data : ℕ → ℕ) (p : ℕ) : ℕ → ℕ :=
  let alpha := data (4 * p + 3)
  if alpha ≤ low ∨ high ≤ alpha then data
  else
    let x : ℤ := (p % W : ℕ)
    let y : ℤ := (p / W : ℕ)
    let rgb : ℤ × ℤ × ℤ :=
      match ringSearch fg data W H x y searchRadius 1 with
      | some res => ((res.2.1 : ℤ), (res.2.2.1 : ℤ), (res.2.2.2 : ℤ))
      | none =>
        let f := defringeFallback sq data W H x y searchRadius alpha
        if 0 < f.2.2.2 then
          (jsRound (f.1 / f.2.2.2), jsRound (f.2.1 / f.2.2.2), jsRound (f.2.2.1 / f.2.2.2))
        else ((data (4 * p) : ℤ), (data (4 * p + 1) : ℤ), (data (4 * p + 2) : ℤ))
    fun j =>
      if j = 4 * p then jsClampByte rgb.1
      else if j = 4 * p + 1 then jsClampByte rgb.2.1
      else if j = 4 * p + 2 then jsClampByte rgb.2.2
      else data j

/-- `defringe`: build the foreground map from the incoming buffer, then
process every pixel in row-major order. -/
def defringe (sq : ℚ → ℚ) (data : ℕ → ℕ) (W H searchRadius low high : ℕ) : ℕ → ℕ :=
  let fg : ℕ → Bool := fun i => decide (high ≤ data (4 * i + 3))
  (List.range (W * H)).foldl (defringeStep sq fg W H searchRadius low high) data

/-- The frame-effect invariant of the defringe scan: relative to the
buffer `d0` on entry, every alpha byte is unchanged and the RGB bytes of
every pixel outside the open alpha band are unchanged. -/
def DefringeInv (low high : ℕ) (d0 d : ℕ → ℕ) : Prop :=
  (∀ p, d (4 * p + 3) = d0 (4 * p + 3)) ∧
  (∀ p, d0 (4 * p + 3) ≤ low ∨ high ≤ d0 (4 * p + 3) →
    d (4 * p) = d0 (4 * p) ∧ d (4 * p + 1) = d0 (4 * p + 1) ∧ d (4 * p + 2) = d0 (4 * p + 2))

theorem defringeStep_preserves (sq : ℚ → ℚ) (fg : ℕ → Bool) (W H searchRadius low high : ℕ)
    (d0 d : ℕ → ℕ) (p' : ℕ) (hinv : DefringeInv low high d0 d) :
    DefringeInv low high d0 (defringeStep sq fg W H searchRadius low high d p') := by
  obtain ⟨ha, hrgb⟩ := hinv
  rw [defringeStep]
  by_cases hskip : d (4 * p' + 3) ≤ low ∨ high ≤ d (4 * p' + 3)
  · rw [if_pos hskip]
    exact ⟨ha, hrgb⟩
  · rw [if_neg hskip]
    have hp' : ¬(d0 (4 * p' + 3) ≤ low ∨ high ≤ d0 (4 * p' + 3)) := by
      rwa [ha p'] at hskip
    constructor
    · intro p
      have h0 : 4 * p + 3 ≠ 4 * p' := by omega
      have h1 : 4 * p + 3 ≠ 4 * p' + 1 := by omega
      have h2 : 4 * p + 3 ≠ 4 * p' + 2 := by omega
      simp only [if_neg h0, if_neg h1, if_neg h2]
      exact ha p
    · intro p hcond
      have hne : p ≠ p' := fun h => hp' (h ▸ hcond)
      obtain ⟨hrgb0, hrgb1, hrgb2⟩ := hrgb p hcond
      refine ⟨?_, ?_, ?_⟩
      · have e0 : 4 * p ≠ 4 * p' := by omega
        have e1 : 4 * p ≠ 4 * p' + 1 := by omega
        have e2 : 4 * p ≠ 4 * p' + 2 := by omega
        simpa only [if_neg e0, if_neg e1, if_neg e2] using hrgb0
      · have e0 : 4 * p + 1 ≠ 4 * p' := by omega
        have e1 : 4 * p + 1 ≠ 4 * p' + 1 := by omega
        have e2 : 4 * p + 1 ≠ 4 * p' + 2 := by omega
        simpa only [if_neg e0, if_neg e1, if_neg e2] using hrgb1
      · have e0 : 4 * p + 2 ≠ 4 * p' := by omega
        have e1 : 4 * p + 2 ≠ 4 * p' + 1 := by omega
        have e2 : 4 * p + 2 ≠ 4 * p' + 2 := by omega
        simpa only [if_neg e0, if_neg e1, if_neg e2] using hrgb2

theorem defringe_fold_inv (sq : ℚ → ℚ) (fg : ℕ → Bool) (W H searchRadius low high : ℕ)
    (d0 : ℕ → ℕ) (l : List ℕ) :
    ∀ d, DefringeInv low high d0 d →
      DefringeInv low high d0 (l.foldl (defringeStep sq fg W H searchRadius low high) d) := by
  induction l with
  | nil => intro d h; exact h
  | cons hd tl ih =>
    intro d h
    exact ih _ (defringeStep_preserves sq fg W H searchRadius low high d0 d hd h)

/-- **C6.**  `defringe` modifies only the RGB channels of pixels whose
alpha lies strictly between the low and high thresholds: every alpha byte
of the output equals the input, and the RGB bytes of every pixel with
alpha ≤ `alphaLow` or alpha ≥ `alphaHigh` are unchanged. -/
theorem c6_defringe_frame_effect (sq : ℚ → ℚ) (data : ℕ → ℕ)
    (W H searchRadius low high : ℕ) :
    (∀ p, defringe sq data W H searchRadius low high (4 * p + 3) = data (4 * p + 3)) ∧
    (∀ p, data (4 * p + 3) ≤ low ∨ high ≤ data (4 * p + 3) →
      defringe sq data W H searchRadius low high (4 * p) = data (4 * p) ∧
      defringe sq data W H searchRadius low high (4 * p + 1) = data (4 * p + 1) ∧
      defringe sq data W H searchRadius low high (4 * p + 2) = data (4 * p + 2)) := by
  have h := defringe_fold_inv sq (fun i => decide (high ≤ data (4 * i + 3)))
    W H searchRadius low high data (List.range (W * H)) data
    ⟨fun _ => rfl, fun _ _ => ⟨rfl, rfl, rfl⟩⟩
  exact ⟨h.1, h.2⟩

/-- Witness for C6: a 1×1 fully-opaque image is untouched by defringing
(alpha byte, and RGB bytes of the alpha-255 pixel). -/
theorem c6_defringe_witness :
    defringe (fun _ => 0) (fun _ => 255) 1 1 10 5 250 3 = 255 ∧
    defringe (fun _ => 0) (fun _ => 255) 1 1 10 5 250 0 = 255 := by
  have h := c6_defringe_frame_effect (fun _ => 0) (fun _ => 255) 1 1 10 5 250
  exact ⟨h.1 0, (h.2 0 (Or.inr (by decide))).1⟩

/-!
## The model-mask entry point
(`refineMask` as invoked by `removeBackground`, src/unnamed/part_004
lines 877–960: refine, write the refined mask into the alpha channel,
then defringe with method-dependent thresholds)

The spec calls this entry point `refineModelMask` and declares a typed
`InvalidBufferSize` failure.  The source contains no buffer-size check
and no throwing construct on this path (out-of-range typed-array writes
are dropped and out-of-range reads yield `undefined`), so the embedded
entry point is total and always returns `.ok`; the `Except` wrapper
exists to make the spec's failure contract statable.
-/

/-- The typed failure the spec declares for this entry point. -/
inductive RefineFailure
  | invalidBufferSize

/-- The alpha-application loop of `removeBackground`:
`imageData.data[i*4+3] = refinedMask[i]` for `i < len`. -/
def applyAlphaMask (data : ℕ → ℕ) (mask : ℕ → ℕ) (len : ℕ) : ℕ → ℕ := fun j =>
  if j % 4 = 3 ∧ j / 4 < len then mask (j / 4) else data j

/-- Whether the method selects segmentation-mode defringe thresholds. -/
def isSegmentation : MaskMethod → Bool
  | .segmentation => true
  | .matting => false

/-- The post-model pixel pipeline of `removeBackground`: refine the raw
mask, write it into the alpha channel, then defringe (search radius 10,
alpha thresholds 10/240 for segmentation and 5/250 for matting). -/
def pipelineRGBA (sq : ℚ → ℚ) (rawMask : ℕ → ℕ) (rawLen mw mh : ℕ) (rgbData : ℕ → ℕ)
    (iw ih : ℕ) (method : MaskMethod) : ℕ → ℕ :=
  let refined := refineMask sq rawMask rawLen mw mh rgbData iw ih method
  let withAlpha := applyAlphaMask rgbData refined (iw * ih)
  defringe sq withAlpha iw ih 10 (if isSegmentation method then 10 else 5)
    (if isSegmentation method then 240 else 250)

/-- The spec's `refineModelMask` entry point: the buffer lengths
(`rawLen` for the raw mask, `guideLen` for the RGBA guide) arrive with
the call, but the implementation never inspects them against the
declared dimensions — it has no failure path at all. -/
def refineModelMask (sq : ℚ → ℚ) (rawMask : ℕ → ℕ) (rawLen mw mh : ℕ) (rgbData : ℕ → ℕ)
    (guideLen iw ih : ℕ) (method : MaskMethod) : Except RefineFailure (ℕ → ℕ) :=
  Except.ok (pipelineRGBA sq rawMask rawLen mw mh rgbData iw ih method)

/-- Counterexample for C1: a call whose raw-mask length (2) differs from
`modelW·modelH` (1) — the claim demands a typed failure, but the call
returns normally (`Except.ok`). -/
theorem c1_no_validation_counterexample :
    (refineModelMask (fun _ => 0) (fun _ => 200) 2 1 1 (fun _ => 128) 4 1 1 .matting).isOk
      = true ∧ (2 ≠ 1 * 1 ∨ 4 ≠ 4 * (1 * 1)) := by
  exact ⟨rfl, Or.inl (by decide)⟩

/-- **C1** (amended).  The entry point performs no buffer-size
validation and has no failure path: for every call — with well-formed or
malformed buffer sizes alike — it returns `.ok` with a result buffer,
never a typed failure. -/
theorem c1_refineModelMask_total (sq : ℚ → ℚ) (rawMask : ℕ → ℕ) (rawLen mw mh : ℕ)
    (rgbData : ℕ → ℕ) (guideLen iw ih : ℕ) (method : MaskMethod) :
    ∃ out, refineModelMask sq rawMask rawLen mw mh rgbData guideLen iw ih method =
      Except.ok out := ⟨_, rfl⟩

/-!
## Constant-propagation lemmas for the end-to-end scenario (claim C2)

A 4×4 raw mask of constant value 200 and a 64×64 solid-gray guide leave
every pipeline stage constant; the lemmas below prove this stage by
stage, for generic dimensions and constants wherever the argument is
generic.
-/

/-- Row-major pixel coordinates within bounds give a flat index within
the buffer. -/
theorem pixelIndex_lt (W H r t : ℕ) (hr : r ≤ H - 1) (ht : t ≤ W - 1)
    (hW : 0 < W) (hH : 0 < H) : r * W + t < W * H := by
  calc r * W + t < r * W + W := by omega
    _ = (r + 1) * W := by ring
    _ ≤ H * W := Nat.mul_le_mul_right W (by omega)
    _ = W * H := Nat.mul_comm _ _

/-- Step 1 on a constant in-range raw mask. -/
theorem rmMaskFloat_const (rawMask : ℕ → ℕ) (rawLen mw mh c : ℕ)
    (hraw : ∀ i, rawMask i = c) (i : ℕ) (hi : i < mw * mh) (hil : i < rawLen) :
    rmMaskFloat rawMask rawLen mw mh i = (c : ℚ) / 255 := by
  rw [rmMaskFloat, if_pos ⟨hi, hil⟩, hraw]

/-- Thresholding a mid-band constant marks every cell uncertain (0). -/
theorem rawUncertainty_const_zero (mask : ℕ → ℚ) (lowThresh highThresh : ℚ) (i : ℕ)
    (hmid : lowThresh < mask i ∧ mask i < highThresh) :
    rawUncertainty mask lowThresh highThresh i = 0 := by
  rw [rawUncertainty, if_pos hmid]

/-- Dilation can only turn cells to 0, so an all-uncertain map stays 0. -/
theorem dilateUncertainty_zero (u : ℕ → ℚ) (W H radius i : ℕ) (hu : u i = 0) :
    dilateUncertainty u W H radius i = 0 := by
  rw [dilateUncertainty]
  split
  · rfl
  · exact hu

/-- Scaling `c/255` back by 255, rounding and storing in a byte returns
`c` for any byte value `c ≤ 255`. -/
theorem jsByteWrap_round_fraction (c : ℕ) (hc : c ≤ 255) :
    jsByteWrap (jsRound ((c : ℚ) / 255 * 255)) = c := by
  have h1 : (c : ℚ) / 255 * 255 = (c : ℚ) := by norm_num
  rw [h1, jsRound]
  have h2 : ⌊(c : ℚ) + 1 / 2⌋ = (c : ℤ) := by
    rw [Int.floor_eq_iff]
    constructor
    · push_cast; linarith
    · push_cast; linarith
  rw [h2, jsByteWrap, Int.emod_eq_of_lt (by positivity) (by exact_mod_cast Nat.lt_succ_of_le hc)]
  exact Int.toNat_natCast c

/-- Rounding a constant `c/255` mask back to bytes gives `c` for any
byte value `c ≤ 255`. -/
theorem maskTo255_const (mask : ℕ → ℚ) (c : ℕ) (hc : c ≤ 255) (i : ℕ)
    (hm : mask i = (c : ℚ) / 255) : maskTo255 mask i = c := by
  rw [maskTo255, hm]
  exact jsByteWrap_round_fraction c hc

/-- The luminance of a solid `(128,128,128,255)` RGBA guide is `128/255`
at every pixel (`0.299 + 0.587 + 0.114 = 1` exactly). -/
theorem grayAt_solidGray (i : ℕ) :
    grayAt (fun j => if j % 4 = 3 then 255 else 128) i = 128 / 255 := by
  have h0 : (i * 4) % 4 = 0 := by omega
  have h1 : (i * 4 + 1) % 4 = 1 := by omega
  have h2 : (i * 4 + 2) % 4 = 2 := by omega
  rw [grayAt]
  rw [if_neg (by omega), if_neg (by omega), if_neg (by omega)]
  norm_num

/-- `clamp01` is the identity on `[0,1]`. -/
theorem clamp01_of_mem (q : ℚ) (h0 : 0 ≤ q) (h1 : q ≤ 1) : clamp01 q = q := by
  rw [clamp01, min_eq_right h1, max_eq_right h0]

/-- Bilinear upscaling of a constant buffer is constant. -/
theorem bilinearUpscale_const (src : ℕ → ℚ) (srcW srcH dstW dstH : ℕ) (c : ℚ)
    (hsrc : ∀ j, j < srcW * srcH → src j = c)
    (hsw : 0 < srcW) (hsh : 0 < srcH) (hdw : 0 < dstW) (hdh : 0 < dstH)
    (i : ℕ) (hi : i < dstW * dstH) :
    bilinearUpscale src srcW srcH dstW dstH i = c := by
  rw [bilinearUpscale]
  set x := i % dstW with hx
  set y := i / dstW with hy
  have hxlt : x < dstW := Nat.mod_lt _ hdw
  have hylt : y < dstH := Nat.div_lt_iff_lt_mul hdw |>.mpr (by rwa [mul_comm])
  set srcX : ℚ := (x : ℚ) * ((srcW : ℚ) / (dstW : ℚ)) with hsrcX
  set srcY : ℚ := (y : ℚ) * ((srcH : ℚ) / (dstH : ℚ)) with hsrcY
  have hsX0 : 0 ≤ srcX := by positivity
  have hsY0 : 0 ≤ srcY := by positivity
  have hsXlt : srcX < (srcW : ℚ) := by
    rw [hsrcX]
    have hd : (0 : ℚ) < (srcW : ℚ) / (dstW : ℚ) := by positivity
    calc (x : ℚ) * ((srcW : ℚ) / (dstW : ℚ)) < (dstW : ℚ) * ((srcW : ℚ) / (dstW : ℚ)) := by
          apply mul_lt_mul_of_pos_right _ hd
          exact_mod_cast hxlt
      _ = (srcW : ℚ) := by field_simp
  have hsYlt : srcY < (srcH : ℚ) := by
    rw [hsrcY]
    have hd : (0 : ℚ) < (srcH : ℚ) / (dstH : ℚ) := by positivity
    calc (y : ℚ) * ((srcH : ℚ) / (dstH : ℚ)) < (dstH : ℚ) * ((srcH : ℚ) / (dstH : ℚ)) := by
          apply mul_lt_mul_of_pos_right _ hd
          exact_mod_cast hylt
      _ = (srcH : ℚ) := by field_simp
  have hx1 : (⌊srcX⌋).toNat ≤ srcW - 1 := by
    have hlt : ⌊srcX⌋ < (srcW : ℤ) := Int.floor_lt.mpr (by exact_mod_cast hsXlt)
    omega
  have hy1 : (⌊srcY⌋).toNat ≤ srcH - 1 := by
    have hlt : ⌊srcY⌋ < (srcH : ℤ) := Int.floor_lt.mpr (by exact_mod_cast hsYlt)
    omega
  have hx2 : min ((⌊srcX⌋).toNat + 1) (srcW - 1) ≤ srcW - 1 := min_le_right _ _
  have hy2 : min ((⌊srcY⌋).toNat + 1) (srcH - 1) ≤ srcH - 1 := min_le_right _ _
  rw [hsrc _ (pixelIndex_lt srcW srcH _ _ hy1 hx1 hsw hsh),
    hsrc _ (pixelIndex_lt srcW srcH _ _ hy1 hx2 hsw hsh),
    hsrc _ (pixelIndex_lt srcW srcH _ _ hy2 hx1 hsw hsh),
    hsrc _ (pixelIndex_lt srcW srcH _ _ hy2 hx2 hsw hsh)]
  ring

/-- Guided filtering of a constant mask against a constant-luminance
guide returns the constant mask (as a fraction of 255): covariance is
zero, so `a = 0` and `b` is the mask mean. -/
theorem guidedFilter_const (mask : ℕ → ℕ) (rgbData : ℕ → ℕ) (W H : ℕ) (radius : ℤ)
    (eps : ℚ) (m : ℕ) (g : ℚ) (hm255 : m ≤ 255)
    (hmask : ∀ j, j < W * H → mask j = m) (hgray : ∀ j, j < W * H → grayAt rgbData j = g)
    (hr : 0 ≤ radius) (i : ℕ) (hi : i < W * H) :
    guidedFilter mask rgbData W H radius eps i = (m : ℚ) / 255 := by
  rw [guidedFilter]
  have hp : ∀ j, j < W * H → ((mask j : ℚ) / 255) = (m : ℚ) / 255 := by
    intro j hj; rw [hmask j hj]
  have hmeanI : ∀ j, j < W * H → boxFilterFlat (grayAt rgbData) W H radius j = g :=
    fun j hj => boxFilterFlat_const _ W H g hgray radius hr j hj
  have hmeanP : ∀ j, j < W * H →
      boxFilterFlat (fun k => (mask k : ℚ) / 255) W H radius j = (m : ℚ) / 255 :=
    fun j hj => boxFilterFlat_const _ W H _ hp radius hr j hj
  have hmeanIP : ∀ j, j < W * H →
      boxFilterFlat (multiply (grayAt rgbData) (fun k => (mask k : ℚ) / 255)) W H radius j
        = g * ((m : ℚ) / 255) := by
    intro j hj
    apply boxFilterFlat_const _ W H _ _ radius hr j hj
    intro k hk
    rw [multiply, hgray k hk, hp k hk]
  have hmeanII : ∀ j, j < W * H →
      boxFilterFlat (multiply (grayAt rgbData) (grayAt rgbData)) W H radius j = g * g := by
    intro j hj
    apply boxFilterFlat_const _ W H _ _ radius hr j hj
    intro k hk
    rw [multiply, hgray k hk]
  have ha : ∀ j, j < W * H →
      (boxFilterFlat (multiply (grayAt rgbData) (fun k => (mask k : ℚ) / 255)) W H radius j -
        boxFilterFlat (grayAt rgbData) W H radius j *
          boxFilterFlat (fun k => (mask k : ℚ) / 255) W H radius j) /
      ((boxFilterFlat (multiply (grayAt rgbData) (grayAt rgbData)) W H radius j -
        boxFilterFlat (grayAt rgbData) W H radius j *
          boxFilterFlat (grayAt rgbData) W H radius j) + eps) = 0 := by
    intro j hj
    rw [hmeanIP j hj, hmeanI j hj, hmeanP j hj, hmeanII j hj]
    rw [sub_self, zero_div]
  have hb : ∀ j, j < W * H →
      (boxFilterFlat (fun k => (mask k : ℚ) / 255) W H radius j -
        (boxFilterFlat (multiply (grayAt rgbData) (fun k => (mask k : ℚ) / 255)) W H radius j -
          boxFilterFlat (grayAt rgbData) W H radius j *
            boxFilterFlat (fun k => (mask k : ℚ) / 255) W H radius j) /
        ((boxFilterFlat (multiply (grayAt rgbData) (grayAt rgbData)) W H radius j -
          boxFilterFlat (grayAt rgbData) W H radius j *
            boxFilterFlat (grayAt rgbData) W H radius j) + eps) *
          boxFilterFlat (grayAt rgbData) W H radius j) = (m : ℚ) / 255 := by
    intro j hj
    rw [ha j hj, hmeanP j hj, zero_mul, sub_zero]
  have hmeanA := boxFilterFlat_const _ W H 0 ha radius hr i hi
  have hmeanB := boxFilterFlat_const _ W H ((m : ℚ) / 255) hb radius hr i hi
  rw [hmeanA, hmeanB, zero_mul, zero_add]
  apply clamp01_of_mem
  · positivity
  · rw [div_le_one (by norm_num)]
    exact_mod_cast hm255

/-- When no mask value crosses either trimap threshold, every in-bounds
trimap cell is unknown (128). -/
theorem createTrimap_all_unknown (mask : ℕ → ℕ) (W H fgT bgT erodeSize : ℕ)
    (h1 : ∀ j, j < W * H → ¬(fgT < mask j)) (h2 : ∀ j, j < W * H → ¬(mask j < bgT))
    (i : ℕ) (hi : i < W * H) :
    createTrimap mask W H fgT bgT erodeSize i = 128 := by
  rw [createTrimap]
  have hfg : binaryErosion (fun j => if fgT < mask j then 1 else 0) W H erodeSize 0 i = 0 := by
    rw [binaryErosion]
    simp only [if_neg (h1 i hi)]
    rfl
  have hbg : binaryErosion (fun j => if mask j < bgT then 1 else 0) W H erodeSize 1 i = 0 := by
    rw [binaryErosion]
    simp only [if_neg (h2 i hi)]
    rfl
  rw [hfg, hbg]
  norm_num

/-- When a trimap value never occurs in bounds, its region index list is
empty, so the sampled colour list is empty as well. -/
theorem sampleColors_empty_of_absent (rgbData : ℕ → ℕ) (trimap : ℕ → ℕ)
    (size v maxSamples : ℕ) (h : ∀ i, i < size → trimap i ≠ v) :
    sampleColors rgbData (regionIndices trimap size v) maxSamples = [] := by
  have hempty : regionIndices trimap size v = [] := by
    rw [regionIndices, List.filter_eq_nil_iff]
    intro a ha
    rw [List.mem_range] at ha
    simpa using h a ha
  rw [hempty]
  simp [sampleColors]

/-- If either sample set of the trimap-matting step comes up short, the
whole `trimapAlphaMatting` call passes the mask through unchanged. -/
theorem trimapAlphaMatting_passthrough (sq : ℚ → ℚ) (mask : ℕ → ℚ) (rgbData : ℕ → ℕ)
    (W H fgT bgT erodeSize : ℕ)
    (hfew : (sampleRegionColors rgbData
        (createTrimap (maskTo255 mask) W H fgT bgT erodeSize) W H 1000).1.length < 10 ∨
      (sampleRegionColors rgbData
        (createTrimap (maskTo255 mask) W H fgT bgT erodeSize) W H 1000).2.length < 10)
    (i : ℕ) :
    trimapAlphaMatting sq mask rgbData W H fgT bgT erodeSize i = mask i := by
  rw [trimapAlphaMatting]
  rw [refineUnknownRegions, if_pos hfew]

/-- Expansion of a sum over the three-point interval `[-1, 1] ∩ ℤ`. -/
theorem sum_Icc11 (f : ℤ → ℚ) :
    (∑ d ∈ Finset.Icc (-1 : ℤ) 1, f d) = f (-1) + f 0 + f 1 := by
  have hIcc : Finset.Icc (-1 : ℤ) 1 = ({-1, 0, 1} : Finset ℤ) := by
    ext z
    simp only [Finset.mem_Icc, Finset.mem_insert, Finset.mem_singleton]
    omega
  rw [hIcc, Finset.sum_insert (by decide), Finset.sum_insert (by decide),
    Finset.sum_singleton]
  ring

/-- A max-fold cannot leave the accumulator when nothing exceeds it. -/
theorem foldl_max_of_le (l : List ℚ) (a : ℚ) (h : ∀ x ∈ l, x ≤ a) :
    l.foldl max a = a := by
  induction l with
  | nil => rfl
  | cons hd tl ih =>
    rw [List.foldl_cons, max_eq_left (h hd (List.mem_cons_self hd tl))]
    exact ih fun x hx => h x (List.mem_cons_of_mem hd hx)

/-- `Math.round` of a whole number. -/
theorem jsRound_natCast (n : ℕ) : jsRound (n : ℚ) = (n : ℤ) := by
  rw [jsRound, Int.floor_eq_iff]
  constructor
  · push_cast; linarith
  · push_cast; linarith

/-- A flat index built from in-bounds signed coordinates is in bounds. -/
theorem toNatIndex_lt (W H : ℕ) (r t : ℤ) (hr0 : 0 ≤ r) (hrH : r ≤ (H : ℤ) - 1)
    (ht0 : 0 ≤ t) (htW : t ≤ (W : ℤ) - 1) : (r * (W : ℤ) + t).toNat < W * H := by
  have hW : (0 : ℤ) < (W : ℤ) := by omega
  have h1 : r * (W : ℤ) ≤ ((H : ℤ) - 1) * (W : ℤ) :=
    mul_le_mul_of_nonneg_right hrH (le_of_lt hW)
  have hcast : ((W * H : ℕ) : ℤ) = (W : ℤ) * (H : ℤ) := by push_cast; ring
  have h3 : r * (W : ℤ) + t < (W : ℤ) * (H : ℤ) := by nlinarith
  have h2 : r * (W : ℤ) + t < ((W * H : ℕ) : ℤ) := lt_of_lt_of_eq h3 hcast.symm
  have h0 : 0 ≤ r * (W : ℤ) + t := by positivity
  exact (Int.toNat_lt h0).mpr h2

/-- On a constant-luminance guide the Sobel response vanishes everywhere
(both kernels sum to zero against a constant), so the raw gradient
magnitude is `sq 0 = 0` at interior pixels and 0 on the border. -/
theorem rawGradient_zero (sq : ℚ → ℚ) (rgbData : ℕ → ℕ) (W H : ℕ) (g : ℚ)
    (hgray : ∀ j, grayAt rgbData j = g) (hsq0 : sq 0 = 0) (i : ℕ) :
    rawGradient sq rgbData W H i = 0 := by
  rw [rawGradient]
  dsimp only
  split
  · simp only [hgray]
    have hker : ∀ k : List ℤ,
        (∑ dy ∈ Finset.Icc (-1 : ℤ) 1, ∑ dx ∈ Finset.Icc (-1 : ℤ) 1,
          g * ((k.getD ((dy + 1) * 3 + (dx + 1)).toNat 0 : ℤ) : ℚ)) =
        g * ((k.getD 0 0 + k.getD 1 0 + k.getD 2 0 + k.getD 3 0 + k.getD 4 0 +
          k.getD 5 0 + k.getD 6 0 + k.getD 7 0 + k.getD 8 0 : ℤ) : ℚ) := by
      intro k
      rw [sum_Icc11 (fun dy => ∑ dx ∈ Finset.Icc (-1 : ℤ) 1,
        g * ((k.getD ((dy + 1) * 3 + (dx + 1)).toNat 0 : ℤ) : ℚ))]
      rw [sum_Icc11, sum_Icc11, sum_Icc11]
      norm_num
      push_cast
      ring
    rw [hker sobelX, hker sobelY]
    have hx : (sobelX.getD 0 0 + sobelX.getD 1 0 + sobelX.getD 2 0 + sobelX.getD 3 0 +
        sobelX.getD 4 0 + sobelX.getD 5 0 + sobelX.getD 6 0 + sobelX.getD 7 0 +
        sobelX.getD 8 0 : ℤ) = 0 := by decide
    have hy : (sobelY.getD 0 0 + sobelY.getD 1 0 + sobelY.getD 2 0 + sobelY.getD 3 0 +
        sobelY.getD 4 0 + sobelY.getD 5 0 + sobelY.getD 6 0 + sobelY.getD 7 0 +
        sobelY.getD 8 0 : ℤ) = 0 := by decide
    rw [hx, hy]
    norm_num
    exact hsq0
  · rfl

/-- The running maximum over an all-zero gradient map is 0. -/
theorem maxGradient_zero (sq : ℚ → ℚ) (rgbData : ℕ → ℕ) (W H : ℕ)
    (h : ∀ i, rawGradient sq rgbData W H i = 0) :
    maxGradient sq rgbData W H = 0 := by
  rw [maxGradient]
  apply foldl_max_of_le
  intro x hx
  rw [List.mem_map] at hx
  obtain ⟨j, _, hj⟩ := hx
  rw [← hj, h j]

/-- `computeGradients` of a constant-luminance guide is identically 0. -/
theorem computeGradients_zero (sq : ℚ → ℚ) (rgbData : ℕ → ℕ) (W H : ℕ) (g : ℚ)
    (hgray : ∀ j, grayAt rgbData j = g) (hsq0 : sq 0 = 0) (i : ℕ) :
    computeGradients sq rgbData W H i = 0 := by
  have hraw := rawGradient_zero sq rgbData W H g hgray hsq0
  rw [computeGradients, maxGradient_zero sq rgbData W H hraw]
  rw [if_neg (lt_irrefl 0)]
  exact hraw i

/-- Feathering a constant mask with an all-zero gradient map returns the
constant: the adaptive radius degenerates to the base radius and the
radially-weighted average of a constant is that constant. -/
theorem gradientAwareFeathering_const (sq : ℚ → ℚ) (mask gradients uncertainty : ℕ → ℚ)
    (W H featherRadius : ℕ) (c : ℚ)
    (hmask : ∀ j, j < W * H → mask j = c)
    (hgrad : ∀ j, gradients j = 0) (hsq0 : sq 0 = 0)
    (i : ℕ) (hi : i < W * H) :
    gradientAwareFeathering sq mask gradients uncertainty W H featherRadius i = c := by
  rw [gradientAwareFeathering]
  dsimp only
  split
  case isFalse => exact hmask i hi
  case isTrue hband =>
    obtain ⟨hx1, hx2, hy1, hy2⟩ := hband
    split
    case isTrue => exact hmask i hi
    case isFalse hskip =>
      rw [hgrad i]
      have hrad : jsRound ((featherRadius : ℚ) * (1 - 0 * 0.7)) = (featherRadius : ℤ) := by
        rw [show (featherRadius : ℚ) * (1 - 0 * 0.7) = (featherRadius : ℚ) by ring]
        exact jsRound_natCast featherRadius
      rw [hrad]
      split
      case isTrue => exact hmask i hi
      case isFalse hargee =>
        have hfR1 : 1 ≤ featherRadius := by omega
        set x := i % W with hxdef
        set y := i / W with hydef
        have hWH : featherRadius ≤ x ∧ x < W - featherRadius ∧ featherRadius ≤ y ∧
            y < H - featherRadius := ⟨hx1, hx2, hy1, hy2⟩
        have hread : ∀ dy ∈ Finset.Icc (-(featherRadius : ℤ)) (featherRadius : ℤ),
            ∀ dx ∈ Finset.Icc (-(featherRadius : ℤ)) (featherRadius : ℤ),
            ((((y : ℤ) + dy) * (W : ℤ) + ((x : ℤ) + dx)).toNat) < W * H := by
          intro dy hdy dx hdx
          rw [Finset.mem_Icc] at hdy hdx
          apply toNatIndex_lt W H ((y : ℤ) + dy) ((x : ℤ) + dx)
          · omega
          · omega
          · omega
          · omega
        set ar : ℚ := ((featherRadius : ℤ) : ℚ) with hardef
        have harpos : (0 : ℚ) < ar := by
          rw [hardef]
          exact_mod_cast by omega
        have hw00 : sq ((0 * 0 + 0 * 0 : ℤ) : ℚ) = 0 := by
          norm_num
          exact hsq0
        have hterm_eq : ∀ dy ∈ Finset.Icc (-(featherRadius : ℤ)) (featherRadius : ℤ),
            ∀ dx ∈ Finset.Icc (-(featherRadius : ℤ)) (featherRadius : ℤ),
            (if sq ((dx * dx + dy * dy : ℤ) : ℚ) ≤ ((featherRadius : ℤ) : ℚ) then
              mask ((((y : ℤ) + dy) * (W : ℤ) + ((x : ℤ) + dx)).toNat) *
                (1 - sq ((dx * dx + dy * dy : ℤ) : ℚ) / ((featherRadius : ℤ) : ℚ))
            else 0) =
            c * (if sq ((dx * dx + dy * dy : ℤ) : ℚ) ≤ ((featherRadius : ℤ) : ℚ) then
              (1 - sq ((dx * dx + dy * dy : ℤ) : ℚ) / ((featherRadius : ℤ) : ℚ)) else 0) := by
          intro dy hdy dx hdx
          rw [mul_ite, mul_zero]
          congr 1
          rw [hmask _ (hread dy hdy dx hdx)]
        have hsum_eq :
            (∑ dy ∈ Finset.Icc (-(featherRadius : ℤ)) (featherRadius : ℤ),
              ∑ dx ∈ Finset.Icc (-(featherRadius : ℤ)) (featherRadius : ℤ),
              if sq ((dx * dx + dy * dy : ℤ) : ℚ) ≤ ((featherRadius : ℤ) : ℚ) then
                mask ((((y : ℤ) + dy) * (W : ℤ) + ((x : ℤ) + dx)).toNat) *
                  (1 - sq ((dx * dx + dy * dy : ℤ) : ℚ) / ((featherRadius : ℤ) : ℚ))
              else 0) =
            c * ∑ dy ∈ Finset.Icc (-(featherRadius : ℤ)) (featherRadius : ℤ),
              ∑ dx ∈ Finset.Icc (-(featherRadius : ℤ)) (featherRadius : ℤ),
              (if sq ((dx * dx + dy * dy : ℤ) : ℚ) ≤ ((featherRadius : ℤ) : ℚ) then
                (1 - sq ((dx * dx + dy * dy : ℤ) : ℚ) / ((featherRadius : ℤ) : ℚ)) else 0) := by
          rw [Finset.mul_sum]
          apply Finset.sum_congr rfl
          intro dy hdy
          rw [Finset.mul_sum]
          apply Finset.sum_congr rfl
          intro dx hdx
          exact hterm_eq dy hdy dx hdx
        have hwnonneg : ∀ dy ∈ Finset.Icc (-(featherRadius : ℤ)) (featherRadius : ℤ),
            ∀ dx ∈ Finset.Icc (-(featherRadius : ℤ)) (featherRadius : ℤ),
            (0 : ℚ) ≤ (if sq ((dx * dx + dy * dy : ℤ) : ℚ) ≤ ((featherRadius : ℤ) : ℚ) then
              (1 - sq ((dx * dx + dy * dy : ℤ) : ℚ) / ((featherRadius : ℤ) : ℚ)) else 0) := by
          intro dy _ dx _
          split
          case isTrue hle =>
            have : sq ((dx * dx + dy * dy : ℤ) : ℚ) / ((featherRadius : ℤ) : ℚ) ≤ 1 :=
              (div_le_one harpos).mpr hle
            linarith
          case isFalse => exact le_refl _
        have hmem0 : (0 : ℤ) ∈ Finset.Icc (-(featherRadius : ℤ)) (featherRadius : ℤ) := by
          rw [Finset.mem_Icc]; omega
        have hwpos : (0 : ℚ) <
            ∑ dy ∈ Finset.Icc (-(featherRadius : ℤ)) (featherRadius : ℤ),
              ∑ dx ∈ Finset.Icc (-(featherRadius : ℤ)) (featherRadius : ℤ),
              (if sq ((dx * dx + dy * dy : ℤ) : ℚ) ≤ ((featherRadius : ℤ) : ℚ) then
                (1 - sq ((dx * dx + dy * dy : ℤ) : ℚ) / ((featherRadius : ℤ) : ℚ)) else 0) := by
          apply Finset.sum_pos'
          · intro dy hdy
            exact Finset.sum_nonneg fun dx hdx => hwnonneg dy hdy dx hdx
          · refine ⟨0, hmem0, ?_⟩
            apply Finset.sum_pos'
            · intro dx hdx
              exact hwnonneg 0 hmem0 dx hdx
            · refine ⟨0, hmem0, ?_⟩
              rw [if_pos (by rw [hw00]; exact le_of_lt harpos)]
              rw [hw00, zero_div, sub_zero]
              norm_num
        rw [hsum_eq]
        rw [if_pos hwpos, mul_div_assoc, div_self (ne_of_gt hwpos), mul_one]

/-- Defringing never changes an alpha byte (helper form, direct from the
fold invariant). -/
theorem defringe_preserves_alpha (sq : ℚ → ℚ) (data : ℕ → ℕ)
    (W H searchRadius low high p : ℕ) :
    defringe sq data W H searchRadius low high (4 * p + 3) = data (4 * p + 3) :=
  (defringe_fold_inv sq (fun i => decide (high ≤ data (4 * i + 3)))
    W H searchRadius low high data (List.range (W * H)) data
    ⟨fun _ => rfl, fun _ _ => ⟨rfl, rfl, rfl⟩⟩).1 p

/-- **C2.**  End-to-end soft-mode scenario: with a 4×4 raw mask of
constant value 200 and a 64×64 solid-gray RGBA guide, the entry-point
pipeline returns an RGBA buffer whose alpha channel is exactly 200 at
every pixel — hence uniform, and within 5 of 200 (the error is 0: the
model's `200/255` survives upscaling, guided filtering, the trimap
fallback, feathering, and defringing unchanged). -/
theorem c2_soft_mode_uniform_alpha (sq : ℚ → ℚ) (hsq0 : sq 0 = 0) (p : ℕ)
    (hp : p < 64 * 64) :
    pipelineRGBA sq (fun _ => 200) 16 4 4 (fun j => if j % 4 = 3 then 255 else 128)
      64 64 MaskMethod.matting (4 * p + 3) = 200 := by
  set raw : ℕ → ℕ := fun _ => 200 with hraw
  set guide : ℕ → ℕ := fun j => if j % 4 = 3 then 255 else 128 with hguide
  -- step 1: constant float mask at model resolution
  have h_mf : ∀ i, i < 16 → rmMaskFloat raw 16 4 4 i = 200 / 255 := by
    intro i hi
    have := rmMaskFloat_const raw 16 4 4 200 (fun _ => rfl) i (by omega) (by omega)
    rwa [show ((200 : ℕ) : ℚ) = 200 from rfl] at this
  -- step 2: everything is uncertain (0) at model resolution
  have h_us : ∀ i, i < 16 → rmUncertaintySmall raw 16 4 4 i = 0 := by
    intro i hi
    rw [rmUncertaintySmall, detectUncertainty]
    apply dilateUncertainty_zero
    apply rawUncertainty_const_zero
    rw [h_mf i hi]
    norm_num
  -- steps 3–4: upscaling preserves both constants
  have h_up : ∀ i, i < 64 * 64 → rmUpscaledMask raw 16 4 4 64 64 i = 200 / 255 := by
    intro i hi
    exact bilinearUpscale_const _ 4 4 64 64 _ (fun j hj => h_mf j (by omega))
      (by norm_num) (by norm_num) (by norm_num) (by norm_num) i hi
  have h_unc : ∀ i, i < 64 * 64 → rmUncertainty raw 16 4 4 64 64 i = 0 := by
    intro i hi
    exact bilinearUpscale_const _ 4 4 64 64 _ (fun j hj => h_us j (by omega))
      (by norm_num) (by norm_num) (by norm_num) (by norm_num) i hi
  -- step 5: back to a constant byte mask
  have h_u8 : ∀ i, i < 64 * 64 → rmMaskUint8 raw 16 4 4 64 64 i = 200 := by
    intro i hi
    exact maskTo255_const _ 200 (by norm_num) i (h_up i hi)
  -- the guide luminance is constant
  have h_gray : ∀ i, grayAt guide i = 128 / 255 := grayAt_solidGray
  -- step 6: guided filtering returns the constant mask
  have h_guided : ∀ i, i < 64 * 64 →
      rmGuided raw 16 4 4 guide 64 64 .matting i = 200 / 255 := by
    intro i hi
    rw [rmGuided]
    have := guidedFilter_const (rmMaskUint8 raw 16 4 4 64 64) guide 64 64
      (paramsFor .matting).guidedFilterRadius (paramsFor .matting).guidedFilterEps
      200 (128 / 255) (by norm_num) h_u8 (fun j _ => h_gray j) (by decide) i hi
    rwa [show ((200 : ℕ) : ℚ) = 200 from rfl] at this
  -- step 7: the trimap is all-unknown, samples are empty, matting passes through
  have h_trimap : ∀ j, j < 64 * 64 →
      createTrimap (maskTo255 (rmGuided raw 16 4 4 guide 64 64 .matting)) 64 64
        (paramsFor .matting).trimapFgThreshold (paramsFor .matting).trimapBgThreshold
        (paramsFor .matting).trimapErodeSize j = 128 := by
    apply createTrimap_all_unknown
    · intro j hj
      rw [maskTo255_const _ 200 (by norm_num) j (h_guided j hj)]
      norm_num [paramsFor]
    · intro j hj
      rw [maskTo255_const _ 200 (by norm_num) j (h_guided j hj)]
      norm_num [paramsFor]
  have h_tam : ∀ i, rmTrimapRefined sq raw 16 4 4 guide 64 64 .matting i =
      rmGuided raw 16 4 4 guide 64 64 .matting i := by
    intro i
    rw [rmTrimapRefined]
    apply trimapAlphaMatting_passthrough
    left
    rw [sampleRegionColors]
    rw [sampleColors_empty_of_absent guide _ (64 * 64) 255 1000
      (fun j hj => by rw [h_trimap j hj]; norm_num)]
    norm_num
  -- steps 8–9: zero gradients, constant feathering
  have h_feather : ∀ i, i < 64 * 64 →
      rmFeathered sq raw 16 4 4 guide 64 64 .matting i = 200 / 255 := by
    intro i hi
    rw [rmFeathered]
    exact gradientAwareFeathering_const sq _ _ _ 64 64 (paramsFor .matting).featherRadius
      (200 / 255) (fun j hj => by rw [h_tam j]; exact h_guided j hj)
      (computeGradients_zero sq guide 64 64 (128 / 255) h_gray hsq0) hsq0 i hi
  -- step 10: conversion back to bytes, no hardening in matting mode
  have h_refined : ∀ i, i < 64 * 64 →
      refineMask sq raw 16 4 4 guide 64 64 .matting i = 200 := by
    intro i hi
    rw [refineMask]
    rw [show (paramsFor .matting).hardenEdges = false from rfl]
    rw [finalizeValue, h_feather i hi]
    rw [if_neg (by simp)]
    rw [clamp01_of_mem _ (by norm_num) (by norm_num)]
    have := jsByteWrap_round_fraction 200 (by norm_num)
    rwa [show ((200 : ℕ) : ℚ) = 200 from rfl] at this
  -- alpha application and defringing
  rw [pipelineRGBA]
  rw [defringe_preserves_alpha]
  rw [applyAlphaMask, if_pos ⟨by omega, by omega⟩]
  rw [show (4 * p + 3) / 4 = p by omega]
  exact h_refined p hp

/-- Witness for C2 at the concrete square root `fun _ => 0` and pixel 0. -/
theorem c2_soft_mode_witness :
    pipelineRGBA (fun _ => 0) (fun _ => 200) 16 4 4
      (fun j => if j % 4 = 3 then 255 else 128) 64 64 MaskMethod.matting 3 = 200 :=
  c2_soft_mode_uniform_alpha (fun _ => 0) rfl 0 (by norm_num)

end AlphaDrop
